import Mathlib

/-!
Verification development for the padding-elimination graph rewrite pass
(`orttraining/orttraining/core/optimizer/compute_optimizer/padding_elimination.cc`).

The C++ pass is shallowly embedded as executable Lean functions over an explicit
graph representation:

* a `Graph` is a list of nodes (in topological order, as delivered by
  `GraphViewer::GetNodesInTopologicalOrder`), a list of graph-input arg ids, an
  association list of constant initializers, an association list of annotated
  shapes, and a counter for fresh arg ids (the host's `GenerateNodeArgName`);
* tensor-shape dimensions are either concrete integer values or symbolic
  parameters, mirroring `TensorShapeProto` dimensions;
* operator type, version and domain checks
  (`IsSupportedOptypeVersionAndDomain`) are abstracted into the `Op` inductive:
  a node whose op type/version/domain is not one of the recognized combinations
  is mapped to `Op.other`;
* fallible steps (`ORT_ENFORCE`, `ORT_THROW`, `std::map::at`, null
  `Shape()` dereference) return `Except Crash`;
* the C++ `std::unordered_set` / `std::unordered_map` containers are modelled
  as insertion-ordered lists with membership-guarded insertion, which fixes one
  deterministic iteration order;
* the BFS work loop of `IterateSubgraphFromNode` is embedded with an explicit
  fuel parameter; running out of fuel is a distinguished `Crash.fuelExhausted`
  outcome that never occurs in any of the theorems below.
-/

namespace PaddingElim

/-- One dimension of an annotated tensor shape: either a concrete value
(`dim_value`) or a symbolic name (`dim_param`). -/
inductive Dim where
  | value : Int → Dim
  | sym : String → Dim
deriving DecidableEq, Repr

/-- `has_dim_value()` on a shape dimension. -/
def Dim.hasValue : Dim → Bool
  | .value _ => true
  | .sym _ => false

/-- `dim_value()` on a shape dimension; protobuf returns the default `0` for a
dimension that carries a `dim_param` instead of a `dim_value`. -/
def Dim.valueOf : Dim → Int
  | .value v => v
  | .sym _ => 0

/-- Recognized operator kinds.  Each constructor stands for one op
type/version/domain combination accepted by the pass's
`IsSupportedOptypeVersionAndDomain` tests; any other node maps to `other`. -/
inductive Op where
  | add | sub | mul | biasGelu
  | layerNorm | simplifiedLayerNorm
  | dropout | cast | gelu
  | matmul | matmulBnb4
  | pythonOp
  | reduceMean
  | aten
  | reshape | shapeOf | gatherElements | concat | expand
  | flattenAndUnpad | padAndUnflatten
  | nonZero | squeeze
  | other
deriving DecidableEq, Repr

/-- The node attributes read or written by the pass, modelling the node's
attribute map restricted to the keys the pass touches.  A `none` field means
the attribute is absent (so `GetAttributes().at(name)` throws). -/
structure Attrs where
  operator : Option String := none
  axis : Option Int := none
  axes : Option (List Int) := none
  funcName : Option String := none
  inputTensorRanks : Option (List Int) := none
  outputTensorRanks : Option (List Int) := none
  inputConvention : Option String := none
  inputRequiresGrads : Option (List Int) := none
  inputTensorTypes : Option (List Int) := none
deriving DecidableEq, Repr

/-- A graph node: operator kind, attributes, execution-provider compatibility
(the result of `IsSupportedProvider`), and ordered input/output arg ids. -/
structure PNode where
  op : Op := .other
  attrs : Attrs := {}
  providerOk : Bool := true
  inputs : List Nat := []
  outputs : List Nat := []
deriving DecidableEq, Repr

instance : Inhabited PNode := ⟨{}⟩

/-- What the pass reads from a constant initializer (`TensorProto`):
its number of dimensions (`dims_size`), whether its element type is INT32 or
INT64, and its scalar payload reinterpreted as an `int64_t`. -/
structure InitInfo where
  dimsSize : Nat := 0
  intTyped : Bool := true
  value : Int := 0
deriving DecidableEq, Repr

/-- The graph: nodes in topological order, graph-input arg ids, constant
initializers, annotated shapes (an arg id absent from `shapes` has no shape,
i.e. `Shape()` is null), and the next fresh arg id. -/
structure Graph where
  nodes : List PNode := []
  graphInputs : List Nat := []
  inits : List (Nat × InitInfo) := []
  shapes : List (Nat × List Dim) := []
  fresh : Nat := 0
deriving DecidableEq, Repr

/-- Node lookup by index (node indices are stable: the pass only appends nodes
and rewires inputs in full-elimination mode). -/
def nodeAt (g : Graph) (j : Nat) : PNode := g.nodes.getD j default

/-- `InputDefs()[i]` of a node, as an arg id. -/
def inp (n : PNode) (i : Nat) : Nat := n.inputs.getD i 0

/-- `OutputDefs()[i]` of a node, as an arg id. -/
def outp (n : PNode) (i : Nat) : Nat := n.outputs.getD i 0

/-- Annotated shape of an arg (`NodeArg::Shape()`, null when absent). -/
def shapeOfArg (g : Graph) (a : Nat) : Option (List Dim) :=
  (g.shapes.find? (fun p => p.1 = a)).map (·.2)

/-- Constant-initializer lookup (`graph_utils::GetConstantInitializer`). -/
def initLookup (g : Graph) (a : Nat) : Option InitInfo :=
  (g.inits.find? (fun p => p.1 = a)).map (·.2)

/-- Set (create or replace) the annotated shape of an arg
(`NodeArg::SetShape`). -/
def setShape (g : Graph) (a : Nat) (s : List Dim) : Graph :=
  { g with shapes := (a, s) :: g.shapes.filter (fun p => p.1 ≠ a) }

/-- All arg ids produced by some node of the graph. -/
def outputsSet (g : Graph) : List Nat := g.nodes.flatMap (·.outputs)

/-- Membership-guarded insertion, modelling `std::unordered_set::insert` with
insertion-order iteration. -/
def insertId (xs : List Nat) (x : Nat) : List Nat :=
  if x ∈ xs then xs else xs ++ [x]

/-- The node indices consuming some output of node `j`
(`Node::OutputNodesBegin()`/`OutputNodesEnd()`), each consumer listed once, in
node-index order. -/
def consumersOf (g : Graph) (j : Nat) : List Nat :=
  (List.range g.nodes.length).filter
    (fun c => (nodeAt g c).inputs.any (fun a => a ∈ (nodeAt g j).outputs))

/-- `PushAllOutputNode` (padding_elimination.cc:23): push every consumer of
`node` that is not in the visited set onto the work queue. -/
def pushAllOutputNode (g : Graph) (q : List Nat) (j : Nat) (visited : List Nat) :
    List Nat :=
  q ++ (consumersOf g j).filter (fun c => c ∉ visited)

/-- Fatal outcomes of the pass: `ORT_ENFORCE` failure, `ORT_THROW`,
`std::map::at` on a missing attribute, dereference of a null `Shape()`, plus
the fuel-exhaustion artifact of the embedded work loop. -/
inductive Crash where
  | enforceFail
  | throwFail
  | missingAttr : String → Crash
  | nullShapeDeref
  | fuelExhausted
deriving DecidableEq, Repr

/-- State threaded through `IterateSubgraphFromNode`: the subgraph arg-id set,
the candidate-input / candidate-output / skip node-index sets, the recorded
inspection-hook nodes with their output ranks, the visited set, a ghost log of
classified node indices (one entry per loop iteration, recording the order in
which nodes were popped and classified), and the graph (mutated in place when
`PythonOp` rank attributes are rewritten in full mode). -/
structure CState where
  subgraph : List Nat := []
  candidateInputs : List Nat := []
  candidateOutputs : List Nat := []
  skipNodes : List Nat := []
  inspectRanks : List (Nat × Nat) := []
  visited : List Nat := []
  visitLog : List Nat := []
  graph : Graph := {}
deriving DecidableEq, Repr

/-- `_InspectActivation` hook function name (padding_elimination.cc:20). -/
def inspectActivationFuncName : String :=
  "onnxruntime.training.utils.hooks._statistics_subscriber._InspectActivation"

/-- `_IncrementStep` hook function name (padding_elimination.cc:21). -/
def incrementStepFuncName : String :=
  "onnxruntime.training.utils.hooks._subscriber_manager._IncrementStep"

/-- The classification rules of `IterateSubgraphFromNode`
(padding_elimination.cc:224-382) applied to the node at index `j`: one
iteration of the work loop after the visited-set insertion.  Returns the
updated state and whether the node's consumers are pushed (`true` exactly on
the paths that call `PushAllOutputNode`). -/
def processNodeCore (applyPaddingRemoval : Bool) (st : CState) (j : Nat)
    (g : Graph) (n : PNode) : Except Crash (CState × Bool) :=
  -- Add / BiasGelu / Sub / Mul (lines 228-254)
  if n.op = .add ∨ n.op = .biasGelu ∨ n.op = .sub ∨ n.op = .mul then
    if ¬(inp n 0 ∈ st.subgraph ∨ inp n 1 ∈ st.subgraph) then
      .error .enforceFail
    else
      match shapeOfArg g (inp n 0), shapeOfArg g (inp n 1) with
      | some s0, some s1 =>
        if (inp n 0 ∉ st.subgraph ∧ s0.length > s1.length) ∨
           (inp n 1 ∉ st.subgraph ∧ s1.length > s0.length) then
          .ok ({ st with candidateOutputs := insertId st.candidateOutputs j }, false)
        else
          .ok ({ st with
                  subgraph := insertId st.subgraph (outp n 0)
                  candidateInputs := insertId st.candidateInputs j
                  skipNodes := insertId st.skipNodes j }, true)
      | _, _ =>
        .ok ({ st with candidateOutputs := insertId st.candidateOutputs j }, false)
  -- LayerNormalization / SimplifiedLayerNormalization (lines 255-279)
  else if n.op = .layerNorm ∨ n.op = .simplifiedLayerNorm then
    if inp n 0 ∉ st.subgraph then
      .ok ({ st with candidateOutputs := insertId st.candidateOutputs j }, false)
    else
      match shapeOfArg g (inp n 0) with
      | none =>
        .ok ({ st with candidateOutputs := insertId st.candidateOutputs j }, false)
      | some s =>
        match n.attrs.axis with
        | none => .error (.missingAttr "axis")
        | some a =>
          let ax : Int := if a < 0 then a + s.length else a
          if ax < 2 then
            .ok ({ st with candidateOutputs := insertId st.candidateOutputs j }, false)
          else
            .ok ({ st with
                    subgraph := insertId st.subgraph (outp n 0)
                    skipNodes := insertId st.skipNodes j }, true)
  -- Dropout (lines 280-284)
  else if n.op = .dropout then
    if inp n 0 ∉ st.subgraph then .error .enforceFail
    else
      .ok ({ st with
              subgraph := insertId (insertId st.subgraph (outp n 0)) (outp n 1) }, true)
  -- Cast / Gelu (lines 285-290)
  else if n.op = .cast ∨ n.op = .gelu then
    if inp n 0 ∉ st.subgraph then .error .enforceFail
    else
      .ok ({ st with
              subgraph := insertId st.subgraph (outp n 0)
              skipNodes := insertId st.skipNodes j }, true)
  -- MatMul / MatMulBnb4 (lines 291-315)
  else if n.op = .matmul ∨ n.op = .matmulBnb4 then
    if inp n 0 ∈ st.subgraph then
      -- line 298 dereferences InputDefs()[0]->Shape() without a null check
      match shapeOfArg g (inp n 0) with
      | none => .error .nullShapeDeref
      | some s =>
        if s.length > 2 then
          .ok ({ st with
                  subgraph := insertId st.subgraph (outp n 0)
                  skipNodes := insertId st.skipNodes j }, true)
        else
          .ok ({ st with candidateOutputs := insertId st.candidateOutputs j }, false)
    else if inp n 1 ∈ st.subgraph then
      .ok ({ st with candidateOutputs := insertId st.candidateOutputs j }, false)
    else
      .error .throwFail
  -- PythonOp (lines 316-354)
  else if n.op = .pythonOp then
    if inp n 0 ∉ st.subgraph then
      .ok ({ st with candidateOutputs := insertId st.candidateOutputs j }, false)
    else
      match n.attrs.funcName with
      | none => .error (.missingAttr "func_name")
      | some fn =>
        let st :=
          if fn = inspectActivationFuncName then
            match shapeOfArg g (outp n 0) with
            | some os => { st with inspectRanks := st.inspectRanks ++ [(j, os.length)] }
            | none => st
          else st
        if fn = inspectActivationFuncName ∨ fn = incrementStepFuncName then
          let st := { st with subgraph := insertId st.subgraph (outp n 1) }
          if applyPaddingRemoval then
            match n.attrs.inputTensorRanks with
            | none => .error .enforceFail
            | some irs =>
              if irs.length = 1 ∧ 2 ≤ irs.getD 0 0 then
                match n.attrs.outputTensorRanks with
                | none => .error .enforceFail
                | some ors =>
                  if ors.length = 1 ∧ 2 ≤ ors.getD 0 0 then
                    let n' := { n with attrs :=
                      { n.attrs with
                          inputTensorRanks := some [irs.getD 0 0 - 1]
                          outputTensorRanks := some [ors.getD 0 0 - 1] } }
                    .ok ({ st with graph := { g with nodes := g.nodes.set j n' } }, true)
                  else .error .enforceFail
              else .error .enforceFail
          else
            .ok (st, true)
        else
          .ok ({ st with candidateOutputs := insertId st.candidateOutputs j }, false)
  -- ReduceMean (lines 355-379)
  else if n.op = .reduceMean then
    match shapeOfArg g (inp n 0) with
    | none =>
      .ok ({ st with candidateOutputs := insertId st.candidateOutputs j }, false)
    | some s =>
      match n.attrs.axes with
      | none => .error (.missingAttr "axes")
      | some axs =>
        let axesCheck := axs.length > 0 ∧
          ∀ a ∈ axs, ¬((if a < 0 then a + (s.length : Int) else a) < 2)
        if axesCheck then
          .ok ({ st with subgraph := insertId st.subgraph (outp n 0) }, true)
        else
          .ok ({ st with candidateOutputs := insertId st.candidateOutputs j }, false)
  -- anything else (lines 380-382)
  else
    .ok ({ st with candidateOutputs := insertId st.candidateOutputs j }, false)

/-- One iteration of the work loop after the visited-set insertion: classify
the node at index `j` of the state's graph. -/
def processNode (applyPaddingRemoval : Bool) (st : CState) (j : Nat) :
    Except Crash (CState × Bool) :=
  processNodeCore applyPaddingRemoval st j st.graph (nodeAt st.graph j)

/-- The work loop of `IterateSubgraphFromNode` (lines 224-383), with fuel.
Each iteration pops the queue front, inserts it into the visited set (and into
the ghost visit log), classifies it with `processNode`, and, on the inclusion
paths, pushes its not-yet-visited consumers. -/
def iterateLoop (applyPaddingRemoval : Bool) :
    Nat → List Nat → CState → Except Crash CState
  | _, [], st => .ok st
  | 0, _ :: _, _ => .error .fuelExhausted
  | fuel + 1, cur :: rest, st =>
    let st := { st with visited := insertId st.visited cur
                        visitLog := st.visitLog ++ [cur] }
    match processNode applyPaddingRemoval st cur with
    | .error c => .error c
    | .ok (st', push) =>
      let q' := if push then pushAllOutputNode st'.graph rest cur st'.visited else rest
      iterateLoop applyPaddingRemoval fuel q' st'

/-- `IterateSubgraphFromNode` (lines 212-384): seed the queue with the
consumers of the start node and run the work loop. -/
def iterateSubgraphFromNode (applyPaddingRemoval : Bool) (fuel : Nat)
    (g : Graph) (startIdx : Nat) (subgraph0 : List Nat) : Except Crash CState :=
  iterateLoop applyPaddingRemoval fuel
    (pushAllOutputNode g [] startIdx [])
    { subgraph := subgraph0, graph := g }

/-! ## Anchor locator (ApplyImpl lines 412-468) -/

/-- `IsATenEmbedding` (lines 32-41): an `ATen` node whose `operator` attribute
is `"embedding"`. -/
def isATenEmbedding (n : PNode) : Bool :=
  n.op = .aten && n.attrs.operator = some "embedding"

/-- The full qualification test a node must pass to be selected as the anchor
in the scan of ApplyImpl lines 413-450 (the conditions of the `if` at lines
417-425 plus the two `continue` filters at lines 426-441). -/
def anchorQualified (g : Graph) (sparse : List Nat) (n : PNode) : Bool :=
  isATenEmbedding n && n.providerOk && decide (3 ≤ n.inputs.length) &&
  (initLookup g (inp n 2)).isSome &&
  decide (inp n 1 ∈ g.graphInputs) &&
  (match shapeOfArg g (inp n 1) with
   | some s => decide (2 ≤ s.length)
   | none => false) &&
  decide (inp n 1 ∈ sparse) &&
  (match initLookup g (inp n 2) with
   | some info => decide (info.dimsSize = 0) && info.intTyped && decide (0 ≤ info.value)
   | none => false)

/-- The anchor scan (lines 413-450): the first node in topological order
passing `anchorQualified`, together with its token-id input arg
(`InputDefs()[1]`). -/
def findAnchor (g : Graph) (sparse : List Nat) : Option (Nat × Nat) :=
  ((List.range g.nodes.length).find? (fun j => anchorQualified g sparse (nodeAt g j))).map
    (fun j => (j, inp (nodeAt g j) 1))

/-- Lines 463-468: every dim of the token-id shape beyond the first two must
have a static value. -/
def trailingDimsOk (s : List Dim) : Bool := (s.drop 2).all Dim.hasValue

/-! ## Graph-mutation primitives -/

/-- `Graph::AddNode` with freshly generated output args: append the node,
allocating `numOuts` fresh arg ids for its outputs. -/
def addNodeWithFreshOutputs (g : Graph) (op : Op) (ins : List Nat) (numOuts : Nat) :
    Graph × List Nat :=
  let outs := (List.range numOuts).map (fun i => g.fresh + i)
  ({ g with nodes := g.nodes ++ [{ op := op, inputs := ins, outputs := outs }]
            fresh := g.fresh + numOuts }, outs)

/-- `CreateInitializerFromVector` (from the shared compute-optimizer
utilities): register a fresh constant-initializer arg.  Only the properties
the pass later reads back (`dims_size`, element type, first payload value) are
recorded. -/
def addInitArg (g : Graph) (info : InitInfo) : Graph × Nat :=
  ({ g with inits := g.inits ++ [(g.fresh, info)], fresh := g.fresh + 1 }, g.fresh)

/-- Redirect the `i`-th input of the node at index `j` to arg `a`. -/
def rewireInput (g : Graph) (j i : Nat) (a : Nat) : Graph :=
  let n := nodeAt g j
  let n' : PNode := { n with inputs := n.inputs.set i a }
  { g with nodes := g.nodes.set j n' }

/-- Modelled from the spec: `InsertIntermediateNodeOnDestInput` (declared in
the compute-optimizer shared utilities, not part of this slice; spec §6
`insertAdapterOnInput`): splice a new node between the `i`-th input edge of
consumer `j` and that consumer alone.  The new node's first input
(`new_node_input_index = 0`) is the consumer's current `i`-th input arg, its
outputs are fresh args, and the consumer's `i`-th input is redirected to the
new node's first output (`new_node_output_index = 0`); all other consumers of
the edge keep the original arg. -/
def insertIntermediateOnInput (g : Graph) (j i : Nat) (op : Op)
    (extraIns : List Nat) (numOuts : Nat) : Graph × List Nat :=
  let old := inp (nodeAt g j) i
  let (g1, outs) := addNodeWithFreshOutputs g op (old :: extraIns) numOuts
  (rewireInput g1 j i (outs.getD 0 0), outs)

/-- `InsertFlattenPatternForInput` (lines 134-169): splice a two-output
`FlattenAndUnpad` node (inputs: the consumer's current `i`-th input and the
valid-index tensor) onto the `i`-th input of node `j`. -/
def insertFlattenPatternForInput (g : Graph) (j i : Nat) (gatherIdx : Nat) : Graph :=
  (insertIntermediateOnInput g j i .flattenAndUnpad [gatherIdx] 2).1

/-- `InsertNodesForOutput` (lines 175-207): splice a `PadAndUnflatten` node
(inputs: the consumer's current `i`-th input, the valid-index tensor and the
first-two-dims descriptor) onto the `i`-th input of node `j`. -/
def insertNodesForOutput (g : Graph) (j i : Nat) (gatherIdx firstTwoDims : Nat) : Graph :=
  (insertIntermediateOnInput g j i .padAndUnflatten [gatherIdx, firstTwoDims] 1).1

/-- `GetDimsValue` (lines 45-66): add `Shape` + `GatherElements` nodes reading
the selected dims of `input`'s runtime shape. -/
def getDimsValue (g : Graph) (input indicesArg : Nat) : Graph × Nat :=
  let (g1, shapeOuts) := addNodeWithFreshOutputs g .shapeOf [input] 1
  let (g2, gatherOuts) :=
    addNodeWithFreshOutputs g1 .gatherElements [shapeOuts.getD 0 0, indicesArg] 1
  (g2, gatherOuts.getD 0 0)

/-- `InsertExpandForNodeInput` (lines 72-130): expand the `i`-th input of node
`j` to the shape `[batch, seq_len, 1, 1, ...]` sized to the sibling input
(`InputDefs()[1-i]`).  When the sibling has rank exactly 2 the first-two-dims
descriptor is used directly as the Expand shape; otherwise an all-ones
initializer of length `rank - 2` is concatenated to it first. -/
def insertExpandForNodeInput (g : Graph) (j i : Nat) (firstTwoDims : Nat) :
    Except Crash Graph :=
  match shapeOfArg g (inp (nodeAt g j) (1 - i)) with
  | none => .error .nullShapeDeref
  | some s =>
    if s.length < 2 then .error .enforceFail
    else if s.length = 2 then
      .ok (insertIntermediateOnInput g j i .expand [firstTwoDims] 1).1
    else
      let (g1, onesArg) := addInitArg g { dimsSize := 1, intTyped := true, value := 1 }
      let (g2, concatOuts) := addNodeWithFreshOutputs g1 .concat [firstTwoDims, onesArg] 1
      .ok (insertIntermediateOnInput g2 j i .expand [concatOuts.getD 0 0] 1).1

/-! ## Boundary rewriter (ApplyImpl lines 630-728) -/

/-- The possible adapter actions for one boundary input, corresponding to the
three branches of lines 666-675. -/
inductive AdapterAction where
  | noAdapter | flattenOnly | expandThenFlatten
deriving DecidableEq, Repr

/-- `dim(k)` access on a shape. -/
def dimAt (s : List Dim) (k : Nat) : Dim := s.getD k (.sym "")

/-- The decision at lines 666-673 for a candidate-input arg not in the
subgraph set, given the sibling (in-subgraph) shape `sIn` and the arg's own
shape `sNot`. -/
def adapterDecision (sIn sNot : List Dim) : AdapterAction :=
  if (sNot.length : Int) ≤ (sIn.length : Int) - 2 then .noAdapter
  else if sIn.length ≠ sNot.length ∨ dimAt sIn 0 ≠ dimAt sNot 0 ∨
          dimAt sIn 1 ≠ dimAt sNot 1 then .expandThenFlatten
  else .flattenOnly

/-- Lines 644-676, body of the candidate-inputs loop for one input index `i`
of candidate-input node `j`. -/
def handleCandidateInput (g : Graph) (subgraph : List Nat) (sq ftd : Nat)
    (j i : Nat) : Except Crash Graph :=
  let n := nodeAt g j
  if inp n i ∈ subgraph then .ok g
  else if n.inputs.length ≠ 2 then .error .enforceFail
  else
    match shapeOfArg g (inp n i), shapeOfArg g (inp n (1 - i)) with
    | some sNot, some sIn =>
      match adapterDecision sIn sNot with
      | .noAdapter => .ok g
      | .flattenOnly => .ok (insertFlattenPatternForInput g j i sq)
      | .expandThenFlatten => do
        let g1 ← insertExpandForNodeInput g j i ftd
        .ok (insertFlattenPatternForInput g1 j i sq)
    | _, _ => .error .nullShapeDeref

/-- The symbolic token-count dimension name of line 691.  The source builds it
from `utils::GetRandomSeed()`; the run-scoped unique suffix is modelled by a
fixed token (spec §9 explicitly allows a run-scoped identifier). -/
def tokenDimName : String := "valid_token_count_R"

/-- Lines 693-702, body of the shape-update loop for a single subgraph edge.
Faithful to the source's placement of `edge->SetShape(flattened_shape)`
*inside* the trailing-dimension loop: the shape annotation is stored once per
trailing dimension, and an edge whose annotated rank is 2 or less is never
re-annotated at all. -/
def updateShapeForEdge (tok : String) (g : Graph) (a : Nat) : Except Crash Graph :=
  match shapeOfArg g a with
  | none => .error .nullShapeDeref
  | some s =>
    ((s.drop 2).foldlM
      (fun (p : List Dim × Graph) (d : Dim) =>
        if d.hasValue then
          let fl := p.1 ++ [Dim.value d.valueOf]
          (Except.ok (fl, setShape p.2 a fl) : Except Crash (List Dim × Graph))
        else .error .enforceFail)
      ([Dim.sym tok], g)).map (·.2)

/-- Lines 708-716: map each consumer of skip-node `j`'s first output to the
first input index at which it consumes that output (`unordered_map::insert`
keeps the first occurrence). -/
def consumersWithInputIdx (g : Graph) (j : Nat) : List (Nat × Nat) :=
  let out0 := outp (nodeAt g j) 0
  (List.range g.nodes.length).filterMap
    (fun c => ((List.range (nodeAt g c).inputs.length).find?
                (fun i => inp (nodeAt g c) i = out0)).map (fun i => (c, i)))

/-- Full-elimination rewrite, ApplyImpl lines 630-728: first-two-dims
descriptor, flatten adapter on the embedding's token-id input, adapters for
candidate inputs and outputs, subgraph shape update, and the skip-node
recover/flatten pass. -/
def fullRewrite (g0 : Graph) (st : CState) (aidx ids sq : Nat) :
    Except Crash (Graph × Bool) := do
  -- lines 631-636: descriptor of the first two dims of input_ids
  let (gA, idxInit) := addInitArg g0 { dimsSize := 1, intTyped := true, value := 0 }
  let (gB, ftd) := getDimsValue gA ids idxInit
  -- lines 638-642: flatten pattern on the embedding's token-id input
  let gC := insertFlattenPatternForInput gB aidx 1 sq
  -- lines 643-678: candidate-inputs loop
  let gD ← st.candidateInputs.foldlM
    (fun g j =>
      (List.range (nodeAt g j).inputs.length).foldlM
        (fun g i => handleCandidateInput g st.subgraph sq ftd j i) g)
    gC
  -- lines 680-689: candidate-outputs loop
  let gE := st.candidateOutputs.foldl
    (fun g j =>
      (List.range (nodeAt g j).inputs.length).foldl
        (fun g' i =>
          if inp (nodeAt g' j) i ∈ st.subgraph then insertNodesForOutput g' j i sq ftd
          else g') g)
    gD
  -- lines 691-702: shape update for subgraph edges
  let gF ← st.subgraph.foldlM (fun g a => updateShapeForEdge tokenDimName g a) gE
  -- lines 704-722: skip-node recover/flatten pass
  let gG := st.skipNodes.foldl
    (fun g j =>
      let g1 := insertNodesForOutput g j 0 sq ftd
      (consumersWithInputIdx g1 j).foldl
        (fun g2 ci => insertFlattenPatternForInput g2 ci.1 ci.2 sq) g1)
    gF
  .ok (gG, true)

/-- The head dimension of the flattened token-id shape (lines 506-519).
When either of the first two dims lacks a static value the source builds the
symbolic name with `oss << cond ? a : b;`, which C++ parses as
`(oss << cond) ? a : b` — the stream receives the boolean (printed `1`/`0`),
not the chosen dimension text; the ternary's result is discarded. -/
def flattenedShapeOf (s : List Dim) : List Dim :=
  let d0 := dimAt s 0
  let d1 := dimAt s 1
  let head :=
    if d0.hasValue ∧ d1.hasValue then Dim.value (d0.valueOf * d1.valueOf)
    else Dim.sym ((if d0.hasValue then "1" else "0") ++ "*" ++
                  (if d1.hasValue then "1" else "0"))
  head :: (s.drop 2).map (fun d => Dim.value d.valueOf)

/-- Lines 485-540: Reshape collapsing the first two dims of the token-id
input, followed by the valid-index computation.  The Reshape is built in this
slice; the rest is the call `InsertNodesForValidIndices(graph, reshape_output,
embedding_input_2, provider)`.  Modelled from the spec: that helper lives in
the compute-optimizer shared utilities (not part of this slice); per spec §4.2
it synthesizes a comparison-against-padding, a non-zero-position extraction
and a dimension squeeze, producing the 1-D valid-index tensor. -/
def buildValidIndexChain (g : Graph) (aidx ids : Nat) (idsShape : List Dim) :
    Graph × Nat :=
  let (g1, shapeInit) := addInitArg g { dimsSize := 1, intTyped := true, value := -1 }
  let (g2, reshapeOuts) := addNodeWithFreshOutputs g1 .reshape [ids, shapeInit] 1
  let flatArg := reshapeOuts.getD 0 0
  let g3 := setShape g2 flatArg (flattenedShapeOf idsShape)
  let padArg := inp (nodeAt g3 aidx) 2
  let (g4, subOuts) := addNodeWithFreshOutputs g3 .sub [flatArg, padArg] 1
  let (g5, nzOuts) := addNodeWithFreshOutputs g4 .nonZero [subOuts.getD 0 0] 1
  let (g6, sqOuts) := addNodeWithFreshOutputs g5 .squeeze [nzOuts.getD 0 0] 1
  let sqArg := sqOuts.getD 0 0
  (setShape g6 sqArg [Dim.sym "valid_index_count"], sqArg)

/-- Lines 542-627 (lightweight mode): replace each recorded inspection node by
an `_InspectUnpadActivation` variant taking the valid-index tensor as an extra
input.  The source adds a replacement node, redirects both outputs' consumers
to it and removes the original; since the replacement takes over the
original's inputs, outputs and attributes, this is modelled by updating the
recorded node in place.  `7` stands for the INT64 element type of the
valid-index tensor (`input_tensor_types` contract, spec §6). -/
def lightweightRewrite (g : Graph) (recorded : List (Nat × Nat)) (sq : Nat) :
    Except Crash (Graph × Bool) :=
  (List.range g.nodes.length).foldlM
    (fun (p : Graph × Bool) j =>
      if (recorded.find? (fun r => r.1 = j)).isSome then
        let n := nodeAt p.1 j
        match n.attrs.inputConvention with
        | none => .error .enforceFail
        | some conv =>
          match n.attrs.inputTensorTypes with
          | none => .error .enforceFail
          | some tys =>
            match shapeOfArg p.1 sq with
            | none => .error .nullShapeDeref
            | some sqs =>
              if sqs.length ≠ 1 then .error .enforceFail
              else
                match n.attrs.inputTensorRanks with
                | none => .error .enforceFail
                | some rs =>
                  let n' := { n with
                    attrs := { n.attrs with
                      funcName := some "onnxruntime.training.utils.hooks._statistics_subscriber._InspectUnpadActivation"
                      inputConvention := some (conv ++ "d")
                      inputRequiresGrads := n.attrs.inputRequiresGrads.map (· ++ [0])
                      inputTensorTypes := some (tys ++ [7])
                      inputTensorRanks := some (rs ++ [(sqs.length : Int)]) }
                    inputs := [inp n 0, sq] }
                  .ok ({ p.1 with nodes := p.1.nodes.set j n' }, true)
      else .ok p)
    (g, false)

/-- `PaddingElimination::ApplyImpl` (lines 387-729).  `enable` is the member
`enable_` (full elimination vs. lightweight instrumentation-only mode),
`sparse` the caller-provided sparse-embedding input list
(`sparse_embedding_input_names_`, as arg ids), `fuel` bounds the embedded BFS
loop.  Returns the resulting graph and the `modified` flag (assuming the flag
entered unset). -/
def applyImpl (enable : Bool) (sparse : List Nat) (fuel : Nat) (g : Graph) :
    Except Crash (Graph × Bool) :=
  if sparse.isEmpty then .ok (g, false)
  else
    match findAnchor g sparse with
    | none => .ok (g, false)
    | some (aidx, ids) =>
      match shapeOfArg g ids with
      | none => .ok (g, false)
      | some idsShape =>
        if trailingDimsOk idsShape then
          match iterateSubgraphFromNode enable fuel g aidx
                  ((nodeAt g aidx).outputs.foldl insertId []) with
          | .error c => .error c
          | .ok st =>
            if enable = false ∧ st.inspectRanks.isEmpty then .ok (st.graph, false)
            else
              let (g1, sq) := buildValidIndexChain st.graph aidx ids idsShape
              if enable = false then lightweightRewrite g1 st.inspectRanks sq
              else fullRewrite g1 st aidx ids sq
        else .ok (g, false)

/-! ## Well-formedness and rewrite-evolution relations -/

/-- The binary elementwise operator kinds of the classifier's first rule. -/
def isElementwise (op : Op) : Prop :=
  op = .add ∨ op = .biasGelu ∨ op = .sub ∨ op = .mul

instance (op : Op) : Decidable (isElementwise op) := by
  unfold isElementwise; infer_instance

/-- Well-formedness of a graph with respect to its fresh-arg counter: every
arg id in use is below `fresh`, graph inputs and constant initializers are
not produced by any node, every node has at least one output, and nodes with
a semantically required second output (`Dropout`, `PythonOp`) have one. -/
structure WF (g : Graph) : Prop where
  gi_lt : ∀ a ∈ g.graphInputs, a < g.fresh
  out_lt : ∀ a ∈ outputsSet g, a < g.fresh
  in_lt : ∀ n ∈ g.nodes, ∀ a ∈ n.inputs, a < g.fresh
  init_lt : ∀ p ∈ g.inits, p.1 < g.fresh
  gi_not_out : ∀ a ∈ g.graphInputs, a ∉ outputsSet g
  init_not_out : ∀ p ∈ g.inits, p.1 ∉ outputsSet g
  prim_out : ∀ n ∈ g.nodes, 1 ≤ n.outputs.length
  sec_out : ∀ n ∈ g.nodes, (n.op = .dropout ∨ n.op = .pythonOp) → 2 ≤ n.outputs.length

/-- How a graph evolves under the pass's rewriting steps: nodes are only
appended (never with an ATen op) and existing nodes only have single inputs
redirected to freshly created node outputs; graph inputs are untouched,
constant initializers with pre-existing ids are untouched and no fresh
initializer id is ever a node output; shapes of graph inputs are untouched. -/
structure Preserves (g g' : Graph) : Prop where
  len_le : g.nodes.length ≤ g'.nodes.length
  fresh_le : g.fresh ≤ g'.fresh
  old_op : ∀ j, j < g.nodes.length → (nodeAt g' j).op = (nodeAt g j).op
  old_operator : ∀ j, j < g.nodes.length →
      (nodeAt g' j).attrs.operator = (nodeAt g j).attrs.operator
  old_prov : ∀ j, j < g.nodes.length → (nodeAt g' j).providerOk = (nodeAt g j).providerOk
  old_inlen : ∀ j, j < g.nodes.length →
      (nodeAt g' j).inputs.length = (nodeAt g j).inputs.length
  old_out : ∀ j, j < g.nodes.length → (nodeAt g' j).outputs = (nodeAt g j).outputs
  old_inp : ∀ j i, j < g.nodes.length →
      (nodeAt g' j).inputs.getD i 0 = (nodeAt g j).inputs.getD i 0 ∨
      (g.fresh ≤ (nodeAt g' j).inputs.getD i 0 ∧
       (nodeAt g' j).inputs.getD i 0 ∈ outputsSet g')
  new_not_aten : ∀ j, g.nodes.length ≤ j → j < g'.nodes.length → (nodeAt g' j).op ≠ .aten
  gin_eq : g'.graphInputs = g.graphInputs
  init_pres : ∀ a, a < g.fresh → initLookup g' a = initLookup g a
  init_fresh_none : ∀ a, g.fresh ≤ a → a ∈ outputsSet g' → initLookup g' a = none
  out_mono : ∀ a, a ∈ outputsSet g → a ∈ outputsSet g'
  out_bound : ∀ a, a ∈ outputsSet g' → a ∈ outputsSet g ∨ g.fresh ≤ a
  shapes_pres : ∀ a, a ∈ g.graphInputs → shapeOfArg g' a = shapeOfArg g a

/-! ## Concrete example graphs -/

/-- A minimal graph with a single qualifying anchor: an ATen `embedding` node
whose token-id input (arg 0) is a graph input of shape `[4, 16]`, whose
padding index (arg 2) is a constant scalar `0`, and whose output (arg 3) is
annotated with shape `[4, 16, 8]`; a downstream `Cast` node produces arg 4,
annotated with the rank-2 shape `[4, 16]`. -/
def gCastChain : Graph :=
  { nodes :=
      [{ op := .aten, attrs := { operator := some "embedding" },
         inputs := [1, 0, 2], outputs := [3] },
       { op := .cast, inputs := [3], outputs := [4] }]
    graphInputs := [0]
    inits := [(2, { dimsSize := 0, intTyped := true, value := 0 })]
    shapes := [(0, [.value 4, .value 16]), (3, [.value 4, .value 16, .value 8]),
               (4, [.value 4, .value 16])]
    fresh := 5 }

/-- A diamond over the anchor: two `Add` nodes (indices 1 and 2) both consume
the embedding output (arg 3), and a third `Add` (index 3) consumes both of
their outputs, so node 3 is reachable from the anchor along two paths. -/
def gDiamond : Graph :=
  { nodes :=
      [{ op := .aten, attrs := { operator := some "embedding" },
         inputs := [1, 0, 2], outputs := [3] },
       { op := .add, inputs := [3, 4], outputs := [6] },
       { op := .add, inputs := [3, 5], outputs := [7] },
       { op := .add, inputs := [6, 7], outputs := [8] }]
    graphInputs := [0]
    inits := [(2, { dimsSize := 0, intTyped := true, value := 0 })]
    shapes := [(0, [.value 4, .value 16]), (3, [.value 4, .value 16, .value 8]),
               (4, [.value 8]), (5, [.value 8]),
               (6, [.value 4, .value 16, .value 8]), (7, [.value 4, .value 16, .value 8]),
               (8, [.value 4, .value 16, .value 8])]
    fresh := 9 }

/-- An anchor followed by a `MatMul` (index 1) whose left operand is the
embedding output (arg 3), which carries no shape annotation. -/
def gMatmulNoShape : Graph :=
  { nodes :=
      [{ op := .aten, attrs := { operator := some "embedding" },
         inputs := [1, 0, 2], outputs := [3] },
       { op := .matmul, inputs := [3, 9], outputs := [10] }]
    graphInputs := [0]
    inits := [(2, { dimsSize := 0, intTyped := true, value := 0 })]
    shapes := [(0, [.value 4, .value 16])]
    fresh := 11 }

/-- Two independent qualifying anchors (disconnected embedding chains), both
of whose token-id inputs (args 0 and 1) are graph inputs registered in the
sparse-embedding list. -/
def gTwoAnchors : Graph :=
  { nodes :=
      [{ op := .aten, attrs := { operator := some "embedding" },
         inputs := [2, 0, 4], outputs := [6] },
       { op := .aten, attrs := { operator := some "embedding" },
         inputs := [3, 1, 5], outputs := [7] }]
    graphInputs := [0, 1]
    inits := [(4, { dimsSize := 0, intTyped := true, value := 0 }),
              (5, { dimsSize := 0, intTyped := true, value := 0 })]
    shapes := [(0, [.value 4, .value 16]), (1, [.value 4, .value 16]),
               (6, [.value 4, .value 16, .value 8]), (7, [.value 4, .value 16, .value 8])]
    fresh := 8 }

/-- `gCastChain` without the `Cast` consumer: one anchor and nothing else. -/
def gSingleAnchor : Graph :=
  { nodes :=
      [{ op := .aten, attrs := { operator := some "embedding" },
         inputs := [1, 0, 2], outputs := [3] }]
    graphInputs := [0]
    inits := [(2, { dimsSize := 0, intTyped := true, value := 0 })]
    shapes := [(0, [.value 4, .value 16]), (3, [.value 4, .value 16, .value 8])]
    fresh := 4 }

/-- The graph produced by a successful full-mode run on `gSingleAnchor`. -/
def gSingleAnchorOut : Graph :=
  ((applyImpl true [0] 6 gSingleAnchor).toOption.getD (gSingleAnchor, false)).1

/-! ## Theorems -/

/-- Claim C1 (code-bug evaluation): after a successful full-mode run on
`gCastChain`, the rank-3 subgraph edge (arg 3) has its first two dims
collapsed to the symbolic token-count dimension, but the rank-2 subgraph edge
(arg 4, the `Cast` output, also in the subgraph set) keeps its original
annotated shape `[4, 16]` — `SetShape` sits inside the trailing-dimension
loop (lines 697-701), which never executes for a rank-2 edge, contradicting
the claimed invariant that every subgraph edge (including rank-2 ones) is
rewritten. -/
theorem C1_rank2_subgraph_edge_not_rewritten :
    (applyImpl true [0] 6 gCastChain).map
      (fun p => (shapeOfArg p.1 3, shapeOfArg p.1 4)) =
    .ok (some [Dim.sym tokenDimName, Dim.value 8],
         some [Dim.value 4, Dim.value 16]) := rfl

/-- Claim C2 (counterexample): in `gDiamond`, node 3 is reachable from the
anchor along two paths; both `Add` predecessors are classified before node 3
is first dequeued, and since `visited` only receives a node when it is popped
(line 227), node 3 is enqueued twice and classified twice — its index appears
twice in the visit log, refuting "each node is enqueued at most once and
visited exactly once". -/
theorem C2_counterexample :
    (iterateSubgraphFromNode true 10 gDiamond 0 [3]).map
      (fun st => st.visitLog.count 3) = .ok 2 := rfl

/-- Claim C2 (amended): a node already in the visited set is never
(re-)enqueued by `PushAllOutputNode`, so a node is never enqueued again after
it has been dequeued and classified; a node reachable along several paths may
still be enqueued (and classified) more than once before its first dequeue. -/
theorem C2_visited_node_never_reenqueued (g : Graph) (q : List Nat)
    (j : Nat) (visited : List Nat) (x : Nat) (hx : x ∈ visited) :
    (pushAllOutputNode g q j visited).count x = q.count x := by
  unfold pushAllOutputNode
  rw [List.count_append]
  have hzero : List.count x (List.filter (fun c => decide (c ∉ visited)) (consumersOf g j)) = 0 := by
    refine List.count_eq_zero.mpr fun hmem => ?_
    exact (of_decide_eq_true (List.mem_filter.mp hmem).2) hx
  rw [hzero, Nat.add_zero]

/-- Witness for `C2_visited_node_never_reenqueued` at a concrete instance. -/
theorem C2_visited_node_never_reenqueued_witness :
    (pushAllOutputNode gDiamond [2] 1 [3]).count 3 = [2].count 3 :=
  C2_visited_node_never_reenqueued gDiamond [2] 1 [3] 3 (by decide)

/-- Claim C4: classification of a matrix-multiply node (`MatMul`/`MatMulBnb4`)
reached by the classifier: left operand in the subgraph set with rank > 2 →
output included (inserted into the subgraph set, consumers pushed, node
recorded for shape update); left operand in the subgraph set with rank ≤ 2 →
boundary-output; only the right operand in the subgraph set → boundary-output
(regardless of the left operand's rank, so a rank-2 left operand is always
boundary-output); neither operand in the subgraph set → fatal abort
(`ORT_THROW`). -/
theorem C4_matmul_classification (apply : Bool) (st : CState) (j : Nat)
    (n : PNode) (s : List Dim) (hn : nodeAt st.graph j = n)
    (hop : n.op = .matmul ∨ n.op = .matmulBnb4) :
    (inp n 0 ∈ st.subgraph → shapeOfArg st.graph (inp n 0) = some s →
      2 < s.length →
      processNode apply st j =
        .ok ({ st with subgraph := insertId st.subgraph (outp n 0)
                       skipNodes := insertId st.skipNodes j }, true)) ∧
    (inp n 0 ∈ st.subgraph → shapeOfArg st.graph (inp n 0) = some s →
      s.length ≤ 2 →
      processNode apply st j =
        .ok ({ st with candidateOutputs := insertId st.candidateOutputs j }, false)) ∧
    (inp n 0 ∉ st.subgraph → inp n 1 ∈ st.subgraph →
      processNode apply st j =
        .ok ({ st with candidateOutputs := insertId st.candidateOutputs j }, false)) ∧
    (inp n 0 ∉ st.subgraph → inp n 1 ∉ st.subgraph →
      processNode apply st j = .error .throwFail) := by
  refine ⟨?_, ?_, ?_, ?_⟩
  · intro h0 hs hlen
    rcases hop with hop | hop <;> simp [processNode, processNodeCore, hn, hop, h0, hs, hlen]
  · intro h0 hs hlen
    rcases hop with hop | hop <;> simp [processNode, processNodeCore, hn, hop, h0, hs, Nat.not_lt.mpr hlen]
  · intro h0 h1
    rcases hop with hop | hop <;> simp [processNode, processNodeCore, hn, hop, h0, h1]
  · intro h0 h1
    rcases hop with hop | hop <;> simp [processNode, processNodeCore, hn, hop, h0, h1]

/-- Witness for `C4_matmul_classification`: the included case on a concrete
matmul whose left operand (the embedding output of `gDiamond`, arg 3) has the
rank-3 shape `[4, 16, 8]`. -/
theorem C4_matmul_classification_witness :
    processNode true
      { subgraph := [3], graph :=
        { nodes := [{ op := .matmul, inputs := [3, 4], outputs := [5] }]
          shapes := [(3, [.value 4, .value 16, .value 8])] } } 0 =
    .ok ({ subgraph := [3, 5], skipNodes := [0], graph :=
            { nodes := [{ op := .matmul, inputs := [3, 4], outputs := [5] }]
              shapes := [(3, [.value 4, .value 16, .value 8])] } }, true) := by
  have h := (C4_matmul_classification true
    { subgraph := [3], graph :=
      { nodes := [{ op := .matmul, inputs := [3, 4], outputs := [5] }]
        shapes := [(3, [.value 4, .value 16, .value 8])] } } 0
    { op := .matmul, inputs := [3, 4], outputs := [5] }
    [.value 4, .value 16, .value 8] rfl (Or.inl rfl)).1
  exact h (by decide) rfl (by decide)

/-- Claim C5: for a normalization node (`LayerNormalization` /
`SimplifiedLayerNormalization`) whose primary input is in the subgraph set
and statically shaped, and for a `ReduceMean` node with a statically shaped
primary input: after normalizing negative axes against the input's rank, an
effective axis of 0 or 1 (for mean reduction: any normalized axis below 2, or
an empty axis list) classifies the node boundary-output, and effective axes
all ≥ 2 classify the node's output included. -/
theorem C5_axis_classification (apply : Bool) (st : CState) (j : Nat)
    (n : PNode) (s : List Dim) (hn : nodeAt st.graph j = n) :
    ((n.op = .layerNorm ∨ n.op = .simplifiedLayerNorm) →
      inp n 0 ∈ st.subgraph → shapeOfArg st.graph (inp n 0) = some s →
      ∀ a : Int, n.attrs.axis = some a →
        (((if a < 0 then a + (s.length : Int) else a) = 0 ∨
          (if a < 0 then a + (s.length : Int) else a) = 1) →
          processNode apply st j =
            .ok ({ st with candidateOutputs := insertId st.candidateOutputs j }, false)) ∧
        (2 ≤ (if a < 0 then a + (s.length : Int) else a) →
          processNode apply st j =
            .ok ({ st with subgraph := insertId st.subgraph (outp n 0)
                           skipNodes := insertId st.skipNodes j }, true))) ∧
    (n.op = .reduceMean →
      shapeOfArg st.graph (inp n 0) = some s →
      ∀ axs : List Int, n.attrs.axes = some axs →
        ((axs = [] ∨ ∃ a ∈ axs, (if a < 0 then a + (s.length : Int) else a) < 2) →
          processNode apply st j =
            .ok ({ st with candidateOutputs := insertId st.candidateOutputs j }, false)) ∧
        (axs ≠ [] → (∀ a ∈ axs, 2 ≤ (if a < 0 then a + (s.length : Int) else a)) →
          processNode apply st j =
            .ok ({ st with subgraph := insertId st.subgraph (outp n 0) }, true))) := by
  constructor
  · intro hop h0 hs a ha
    constructor
    · intro heff
      have hlt : (if a < 0 then a + (s.length : Int) else a) < 2 := by omega
      rcases hop with hop | hop <;> simp [processNode, processNodeCore, hn, hop, h0, hs, ha, hlt]
    · intro heff
      have hlt : ¬((if a < 0 then a + (s.length : Int) else a) < 2) := by omega
      rcases hop with hop | hop <;> simp [processNode, processNodeCore, hn, hop, h0, hs, ha, hlt]
  · intro hop hs axs ha
    constructor
    · intro hbad
      have hfail : ¬(axs.length > 0 ∧
          ∀ a ∈ axs, ¬((if a < 0 then a + (s.length : Int) else a) < 2)) := by
        rcases hbad with hbad | ⟨a, hmem, hlt⟩
        · subst hbad; simp
        · rintro ⟨-, hall⟩; exact hall a hmem hlt
      simp [processNode, processNodeCore, hn, hop, hs, ha, hfail]
      intro hlen
      rcases hbad with hbad | hbad
      · subst hbad; exact absurd hlen (by simp)
      · exact hbad
    · intro hne hall
      have hpass : axs.length > 0 ∧
          ∀ a ∈ axs, ¬((if a < 0 then a + (s.length : Int) else a) < 2) :=
        ⟨List.length_pos.mpr hne, fun a hmem => Int.not_lt.mpr (hall a hmem)⟩
      simp [processNode, processNodeCore, hn, hop, hs, ha, hpass]
      exact hall

/-- Witness for `C5_axis_classification`: the included case on a concrete
`LayerNormalization` with axis `-1` over a rank-3 input. -/
theorem C5_axis_classification_witness :
    processNode true
      { subgraph := [3], graph :=
        { nodes := [{ op := .layerNorm, attrs := { axis := some (-1) },
                      inputs := [3, 4, 5], outputs := [6] }]
          shapes := [(3, [.value 4, .value 16, .value 8])] } } 0 =
    .ok ({ subgraph := [3, 6], skipNodes := [0], graph :=
            { nodes := [{ op := .layerNorm, attrs := { axis := some (-1) },
                          inputs := [3, 4, 5], outputs := [6] }]
              shapes := [(3, [.value 4, .value 16, .value 8])] } }, true) := by
  have h := ((C5_axis_classification true
    { subgraph := [3], graph :=
      { nodes := [{ op := .layerNorm, attrs := { axis := some (-1) },
                    inputs := [3, 4, 5], outputs := [6] }]
        shapes := [(3, [.value 4, .value 16, .value 8])] } } 0
    { op := .layerNorm, attrs := { axis := some (-1) },
      inputs := [3, 4, 5], outputs := [6] }
    [.value 4, .value 16, .value 8] rfl).1
    (Or.inl rfl) (by decide) rfl (-1) rfl).2
  exact h (by decide)

/-- Claim C10: a normalization node whose primary input is in the subgraph
set and statically shaped but which has no `axis` attribute, and a
`ReduceMean` node with a statically shaped input but no `axes` attribute,
make the classifier throw (`std::map::at` on the missing key), aborting the
pass, instead of classifying the node boundary-output. -/
theorem C10_missing_axis_attribute_is_fatal (apply : Bool) (st : CState)
    (j : Nat) (n : PNode) (hn : nodeAt st.graph j = n) :
    ((n.op = .layerNorm ∨ n.op = .simplifiedLayerNorm) →
      inp n 0 ∈ st.subgraph → (shapeOfArg st.graph (inp n 0)).isSome →
      n.attrs.axis = none →
      processNode apply st j = .error (.missingAttr "axis")) ∧
    (n.op = .reduceMean → (shapeOfArg st.graph (inp n 0)).isSome →
      n.attrs.axes = none →
      processNode apply st j = .error (.missingAttr "axes")) := by
  constructor
  · intro hop h0 hsome hax
    obtain ⟨s, hs⟩ := Option.isSome_iff_exists.mp hsome
    rcases hop with hop | hop <;> simp [processNode, processNodeCore, hn, hop, h0, hs, hax]
  · intro hop hsome hax
    obtain ⟨s, hs⟩ := Option.isSome_iff_exists.mp hsome
    simp [processNode, processNodeCore, hn, hop, hs, hax]

/-- Witness for `C10_missing_axis_attribute_is_fatal`: a concrete
`LayerNormalization` with no `axis` attribute. -/
theorem C10_missing_axis_attribute_is_fatal_witness :
    processNode true
      { subgraph := [3], graph :=
        { nodes := [{ op := .layerNorm, inputs := [3, 4, 5], outputs := [6] }]
          shapes := [(3, [.value 4, .value 16, .value 8])] } } 0 =
    .error (.missingAttr "axis") :=
  (C10_missing_axis_attribute_is_fatal true
    { subgraph := [3], graph :=
      { nodes := [{ op := .layerNorm, inputs := [3, 4, 5], outputs := [6] }]
        shapes := [(3, [.value 4, .value 16, .value 8])] } } 0
    { op := .layerNorm, inputs := [3, 4, 5], outputs := [6] } rfl).1
    (Or.inl rfl) (by decide) (by decide) rfl

/-- Claim C3 (counterexample): in `gMatmulNoShape`, the `MatMul` at index 1
has its left operand (arg 3) in the subgraph set but no shape annotation;
line 298 dereferences the null `Shape()`, so the classifier crashes instead
of marking the node boundary-output and continuing. -/
theorem C3_counterexample :
    processNode true { subgraph := [3], graph := gMatmulNoShape } 1 =
    .error .nullShapeDeref := rfl

/-- Claim C3 (amended): a node whose required input lacks a statically known
shape is classified boundary-output and the traversal continues, never
fatally — for every such case except a `MatMul`/`MatMulBnb4` whose left
operand is in the subgraph set (which dereferences the missing shape and
crashes) and the explicitly fatal no-input-in-subgraph cases: elementwise
nodes with an operand in the subgraph set and a missing shape, normalization
nodes with the first input in the subgraph set and no shape, matrix
multiplies with only the right operand in the subgraph set, and `ReduceMean`
nodes with no input shape. -/
theorem C3_missing_shape_is_boundary_output (apply : Bool) (st : CState)
    (j : Nat) (n : PNode) (hn : nodeAt st.graph j = n) :
    ((n.op = .add ∨ n.op = .biasGelu ∨ n.op = .sub ∨ n.op = .mul) →
      (inp n 0 ∈ st.subgraph ∨ inp n 1 ∈ st.subgraph) →
      (shapeOfArg st.graph (inp n 0) = none ∨ shapeOfArg st.graph (inp n 1) = none) →
      processNode apply st j =
        .ok ({ st with candidateOutputs := insertId st.candidateOutputs j }, false)) ∧
    ((n.op = .layerNorm ∨ n.op = .simplifiedLayerNorm) →
      inp n 0 ∈ st.subgraph → shapeOfArg st.graph (inp n 0) = none →
      processNode apply st j =
        .ok ({ st with candidateOutputs := insertId st.candidateOutputs j }, false)) ∧
    ((n.op = .matmul ∨ n.op = .matmulBnb4) →
      inp n 0 ∉ st.subgraph → inp n 1 ∈ st.subgraph →
      processNode apply st j =
        .ok ({ st with candidateOutputs := insertId st.candidateOutputs j }, false)) ∧
    (n.op = .reduceMean → shapeOfArg st.graph (inp n 0) = none →
      processNode apply st j =
        .ok ({ st with candidateOutputs := insertId st.candidateOutputs j }, false)) := by
  refine ⟨?_, ?_, ?_, ?_⟩
  · intro hop hsub hshape
    have hsub' : ¬¬(inp n 0 ∈ st.subgraph ∨ inp n 1 ∈ st.subgraph) := not_not.mpr hsub
    rcases hop with hop | hop | hop | hop <;>
      rcases hshape with hshape | hshape <;>
        cases hother0 : shapeOfArg st.graph (inp n 0) <;>
          cases hother1 : shapeOfArg st.graph (inp n 1) <;>
            simp_all [processNode, processNodeCore, hn]
  · intro hop h0 hshape
    rcases hop with hop | hop <;> simp [processNode, processNodeCore, hn, hop, h0, hshape]
  · intro hop h0 h1
    rcases hop with hop | hop <;> simp [processNode, processNodeCore, hn, hop, h0, h1]
  · intro hop hshape
    simp [processNode, processNodeCore, hn, hop, hshape]

/-- Witness for `C3_missing_shape_is_boundary_output`: a concrete `Add` whose
second input has no shape annotation. -/
theorem C3_missing_shape_is_boundary_output_witness :
    processNode true
      { subgraph := [3], graph :=
        { nodes := [{ op := .add, inputs := [3, 4], outputs := [5] }]
          shapes := [(3, [.value 4, .value 16, .value 8])] } } 0 =
    .ok ({ subgraph := [3], candidateOutputs := [0], graph :=
            { nodes := [{ op := .add, inputs := [3, 4], outputs := [5] }]
              shapes := [(3, [.value 4, .value 16, .value 8])] } }, false) :=
  (C3_missing_shape_is_boundary_output true
    { subgraph := [3], graph :=
      { nodes := [{ op := .add, inputs := [3, 4], outputs := [5] }]
        shapes := [(3, [.value 4, .value 16, .value 8])] } } 0
    { op := .add, inputs := [3, 4], outputs := [5] } rfl).1
    (Or.inl rfl) (Or.inl (by decide)) (Or.inr rfl)

/-! ### Structural lemmas about the mutation primitives -/

theorem getD_append_left {α : Type} {l₁ l₂ : List α} {j : Nat} (d : α)
    (hj : j < l₁.length) : (l₁ ++ l₂).getD j d = l₁.getD j d := by
  simp [List.getD_eq_getElem?_getD, List.getElem?_append_left hj]

theorem getD_set_self {α : Type} {l : List α} {j : Nat} (x d : α)
    (hj : j < l.length) : (l.set j x).getD j d = x := by
  simp [List.getD_eq_getElem?_getD, List.getElem?_set_self hj]

theorem getD_set_ne {α : Type} {l : List α} {j t : Nat} (x d : α)
    (hjt : j ≠ t) : (l.set j x).getD t d = l.getD t d := by
  simp [List.getD_eq_getElem?_getD, List.getElem?_set_ne hjt]

/-- Characterization of `insertIntermediateOnInput`: the consumer's `i`-th
input is redirected to the first fresh output, the spliced node is appended,
and every other graph component is unchanged. -/
theorem insertIntermediateOnInput_eq (g : Graph) (j i : Nat) (op : Op)
    (extra : List Nat) (k : Nat) (hj : j < g.nodes.length) (hk : 0 < k) :
    (insertIntermediateOnInput g j i op extra k).1 =
      { g with
          nodes := (g.nodes.set j
            ({ nodeAt g j with inputs := (nodeAt g j).inputs.set i g.fresh })) ++
            [{ op := op, inputs := inp (nodeAt g j) i :: extra,
               outputs := (List.range k).map (fun t => g.fresh + t) }]
          fresh := g.fresh + k } := by
  have houts : ((List.range k).map (fun t => g.fresh + t)).getD 0 0 = g.fresh := by
    cases k with
    | zero => exact absurd hk (by omega)
    | succ m => simp [List.range_succ_eq_map]
  unfold insertIntermediateOnInput addNodeWithFreshOutputs rewireInput nodeAt inp
  simp only []
  rw [List.set_append, if_pos hj, getD_append_left default hj, houts]

theorem drop_set_append {α : Type} (l : List α) (j : Nat) (x : α) (t : List α) :
    ((l.set j x) ++ t).drop l.length = t := by
  have h : l.length = (l.set j x).length := (List.length_set _ _ _).symm
  rw [h, List.drop_left]

theorem getD_set_append {α : Type} (l : List α) (j : Nat) (x d : α) (t : List α)
    (hj : j < l.length) : ((l.set j x) ++ t).getD j d = x := by
  rw [getD_append_left d (by rw [List.length_set]; exact hj), getD_set_self x d hj]

/-- Claim C6: for a boundary-input node and one of its inputs not in the
subgraph set (the sibling input being in the subgraph set with rank ≥ 2):
if the input's rank is at most the sibling's rank minus two, no adapter is
inserted; otherwise if its rank differs from the sibling's or its first two
dims are not literally the sibling's first two dims, an `Expand` adapter
built from the anchor's first-two-dims descriptor (concatenated via `Concat`
with ones when the sibling rank exceeds 2) is inserted first; and in either
remaining case a `FlattenAndUnpad` adapter consuming the (possibly expanded)
input and the valid-index tensor is inserted and the node's input is rewired
to its first output. -/
theorem C6_boundary_input_adapters (g : Graph) (subgraph : List Nat)
    (sq ftd j i : Nat) (n : PNode) (sIn sNot : List Dim)
    (hn : nodeAt g j = n) (hj : j < g.nodes.length)
    (hlen : n.inputs.length = 2) (hidx : i < n.inputs.length)
    (hi : inp n i ∉ subgraph)
    (hsNot : shapeOfArg g (inp n i) = some sNot)
    (hsIn : shapeOfArg g (inp n (1 - i)) = some sIn)
    (hrk : 2 ≤ sIn.length) :
    ((sNot.length : Int) ≤ (sIn.length : Int) - 2 →
      handleCandidateInput g subgraph sq ftd j i = .ok g) ∧
    (¬((sNot.length : Int) ≤ (sIn.length : Int) - 2) →
      (sIn.length ≠ sNot.length ∨ dimAt sIn 0 ≠ dimAt sNot 0 ∨
       dimAt sIn 1 ≠ dimAt sNot 1) →
      ∃ g', handleCandidateInput g subgraph sq ftd j i = .ok g' ∧
        (g'.nodes.drop g.nodes.length).map (fun m => (m.op, m.inputs)) =
          (if sIn.length = 2 then
            [(.expand, [inp n i, ftd]), (.flattenAndUnpad, [g.fresh, sq])]
           else
            [(.concat, [ftd, g.fresh]), (.expand, [inp n i, g.fresh + 1]),
             (.flattenAndUnpad, [g.fresh + 2, sq])]) ∧
        inp (nodeAt g' j) i = (if sIn.length = 2 then g.fresh + 1 else g.fresh + 3)) ∧
    (¬((sNot.length : Int) ≤ (sIn.length : Int) - 2) →
      sIn.length = sNot.length → dimAt sIn 0 = dimAt sNot 0 →
      dimAt sIn 1 = dimAt sNot 1 →
      ∃ g', handleCandidateInput g subgraph sq ftd j i = .ok g' ∧
        (g'.nodes.drop g.nodes.length).map (fun m => (m.op, m.inputs)) =
          [(.flattenAndUnpad, [inp n i, sq])] ∧
        inp (nodeAt g' j) i = g.fresh) := by
  subst hn
  have hidxD : i < (g.nodes.getD j default).inputs.length := by
    simpa [nodeAt] using hidx
  have hflat : ∀ g₀ : Graph, j < g₀.nodes.length →
      insertFlattenPatternForInput g₀ j i sq =
      { g₀ with
          nodes := (g₀.nodes.set j
            ({ nodeAt g₀ j with inputs := (nodeAt g₀ j).inputs.set i g₀.fresh })) ++
            [{ op := .flattenAndUnpad, inputs := [inp (nodeAt g₀ j) i, sq],
               outputs := [g₀.fresh, g₀.fresh + 1] }]
          fresh := g₀.fresh + 2 } := by
    intro g₀ hj₀
    unfold insertFlattenPatternForInput
    rw [insertIntermediateOnInput_eq g₀ j i _ _ _ hj₀ (by omega)]
    simp [List.range_succ]
  refine ⟨?_, ?_, ?_⟩
  · intro h1
    have hdec : adapterDecision sIn sNot = .noAdapter := by
      unfold adapterDecision; rw [if_pos h1]
    simp [handleCandidateInput, hi, hlen, hsNot, hsIn, hdec]
  · intro h1 h2
    have hdec : adapterDecision sIn sNot = .expandThenFlatten := by
      unfold adapterDecision; rw [if_neg h1, if_pos h2]
    by_cases h2len : sIn.length = 2
    · -- sibling rank exactly 2: Expand directly from the descriptor
      have hg1 : (insertIntermediateOnInput g j i .expand [ftd] 1).1 =
          { g with
              nodes := (g.nodes.set j
                ({ nodeAt g j with inputs := (nodeAt g j).inputs.set i g.fresh })) ++
                [{ op := .expand, inputs := [inp (nodeAt g j) i, ftd],
                   outputs := [g.fresh] }]
              fresh := g.fresh + 1 } := by
        rw [insertIntermediateOnInput_eq g j i _ _ _ hj (by omega)]
        simp [List.range_succ]
      have hexp : insertExpandForNodeInput g j i ftd =
          .ok (insertIntermediateOnInput g j i .expand [ftd] 1).1 := by
        simp [insertExpandForNodeInput, hsIn, h2len]
      rw [hg1] at hexp
      have hrun : handleCandidateInput g subgraph sq ftd j i =
          .ok (insertFlattenPatternForInput
            { g with
                nodes := (g.nodes.set j
                  ({ nodeAt g j with inputs := (nodeAt g j).inputs.set i g.fresh })) ++
                  [{ op := .expand, inputs := [inp (nodeAt g j) i, ftd],
                     outputs := [g.fresh] }]
                fresh := g.fresh + 1 } j i sq) := by
        simp only [handleCandidateInput, hi, hlen, hsNot, hsIn, hdec, hexp]
        simp [hi, hlen]
        rfl
      rw [hflat _ (by simp; omega)] at hrun
      simp only [nodeAt] at hrun
      rw [getD_set_append _ _ _ _ _ hj] at hrun
      simp only [List.set_append, List.length_set, if_pos hj, List.set_set] at hrun
      rw [List.append_assoc] at hrun
      refine ⟨_, hrun, ?_, ?_⟩
      · rw [if_pos h2len]
        simp only []
        rw [drop_set_append]
        simp only [inp, nodeAt, List.map]
        rw [getD_set_self _ _ hidxD]
      · rw [if_pos h2len]
        simp only [nodeAt, inp]
        rw [getD_set_append _ _ _ _ _ hj]
        simp only []
        rw [getD_set_self _ _ hidxD]
    · -- sibling rank > 2: Concat the descriptor with ones, then Expand
      have hexp : insertExpandForNodeInput g j i ftd =
          .ok (insertIntermediateOnInput
            { g with
                nodes := g.nodes ++ [{ op := .concat, inputs := [ftd, g.fresh],
                                       outputs := [g.fresh + 1] }]
                inits := g.inits ++ [(g.fresh, { dimsSize := 1, intTyped := true, value := 1 })]
                fresh := g.fresh + 2 } j i .expand [g.fresh + 1] 1).1 := by
        simp [insertExpandForNodeInput, hsIn, h2len, Nat.not_lt.mpr hrk,
              addInitArg, addNodeWithFreshOutputs, List.range_succ, Nat.add_assoc]
      have hg1 : (insertIntermediateOnInput
            { g with
                nodes := g.nodes ++ [{ op := .concat, inputs := [ftd, g.fresh],
                                       outputs := [g.fresh + 1] }]
                inits := g.inits ++ [(g.fresh, { dimsSize := 1, intTyped := true, value := 1 })]
                fresh := g.fresh + 2 } j i .expand [g.fresh + 1] 1).1 =
          { g with
              nodes := ((g.nodes.set j
                ({ nodeAt g j with inputs := (nodeAt g j).inputs.set i (g.fresh + 2) })) ++
                [{ op := .concat, inputs := [ftd, g.fresh], outputs := [g.fresh + 1] }]) ++
                [{ op := .expand, inputs := [inp (nodeAt g j) i, g.fresh + 1],
                   outputs := [g.fresh + 2] }]
              inits := g.inits ++ [(g.fresh, { dimsSize := 1, intTyped := true, value := 1 })]
              fresh := g.fresh + 3 } := by
        rw [insertIntermediateOnInput_eq _ j i _ _ _ (by simp; omega) (by omega)]
        simp only [nodeAt, inp]
        rw [getD_append_left _ hj]
        simp only [List.set_append, if_pos hj]
        simp [List.range_succ, Nat.add_assoc]
      rw [hg1] at hexp
      have hrun : handleCandidateInput g subgraph sq ftd j i =
          .ok (insertFlattenPatternForInput
            { g with
                nodes := ((g.nodes.set j
                  ({ nodeAt g j with inputs := (nodeAt g j).inputs.set i (g.fresh + 2) })) ++
                  [{ op := .concat, inputs := [ftd, g.fresh], outputs := [g.fresh + 1] }]) ++
                  [{ op := .expand, inputs := [inp (nodeAt g j) i, g.fresh + 1],
                     outputs := [g.fresh + 2] }]
                inits := g.inits ++ [(g.fresh, { dimsSize := 1, intTyped := true, value := 1 })]
                fresh := g.fresh + 3 } j i sq) := by
        simp only [handleCandidateInput, hi, hlen, hsNot, hsIn, hdec, hexp]
        simp [hi, hlen]
        rfl
      rw [hflat _ (by simp; omega)] at hrun
      simp only [nodeAt] at hrun
      rw [List.append_assoc (g.nodes.set j _),
          getD_set_append _ _ _ _ _ hj] at hrun
      simp only [List.set_append, List.length_set, List.length_append, if_pos hj,
                 if_pos (by omega : j < g.nodes.length + 1), List.set_set] at hrun
      rw [List.append_assoc, List.append_assoc] at hrun
      refine ⟨_, hrun, ?_, ?_⟩
      · rw [if_neg h2len]
        simp only []
        rw [drop_set_append]
        simp only [inp, nodeAt, List.map, List.append_assoc, List.cons_append,
                   List.nil_append]
        rw [getD_set_self _ _ hidxD]
      · rw [if_neg h2len]
        simp only [nodeAt, inp]
        rw [getD_set_append _ _ _ _ _ hj]
        simp only []
        rw [getD_set_self _ _ hidxD]
  · intro h1 he hd0 hd1
    have hdec : adapterDecision sIn sNot = .flattenOnly := by
      unfold adapterDecision
      rw [if_neg h1, if_neg (by push_neg; exact ⟨he, hd0, hd1⟩)]
    have hrun : handleCandidateInput g subgraph sq ftd j i =
        .ok (insertFlattenPatternForInput g j i sq) := by
      simp [handleCandidateInput, hi, hlen, hsNot, hsIn, hdec]
    rw [hflat _ hj] at hrun
    refine ⟨_, hrun, ?_, ?_⟩
    · simp only []
      rw [drop_set_append]
      simp only [inp, nodeAt, List.map]
    · simp only [nodeAt, inp]
      rw [getD_set_append _ _ _ _ _ hj]
      simp only []
      rw [getD_set_self _ _ hidxD]

/-- Witness for `C6_boundary_input_adapters`: the flatten-only case on a
concrete `Add` whose boundary input (arg 4) has the same rank and the same
leading two dims as the in-subgraph sibling (arg 3). -/
theorem C6_boundary_input_adapters_witness :
    ∃ g', handleCandidateInput
        { nodes := [{ op := .add, inputs := [4, 3], outputs := [5] }]
          shapes := [(3, [.value 4, .value 16, .value 8]),
                     (4, [.value 4, .value 16, .value 9])]
          fresh := 200 } [3] 100 101 0 0 = .ok g' ∧
      (g'.nodes.drop 1).map (fun m => (m.op, m.inputs)) =
        [(.flattenAndUnpad, [4, 100])] ∧
      inp (nodeAt g' 0) 0 = 200 :=
  (C6_boundary_input_adapters
    { nodes := [{ op := .add, inputs := [4, 3], outputs := [5] }]
      shapes := [(3, [.value 4, .value 16, .value 8]),
                 (4, [.value 4, .value 16, .value 9])]
      fresh := 200 } [3] 100 101 0 0
    { op := .add, inputs := [4, 3], outputs := [5] }
    [.value 4, .value 16, .value 8] [.value 4, .value 16, .value 9]
    rfl (by decide) rfl (by decide) (by decide) rfl rfl (by decide)).2.2
    (by decide) rfl rfl rfl

/-- Case analysis of a single classification step's effect on the graph: the
graph is unchanged, except on the full-mode `PythonOp` rank-attribute rewrite
(lines 332-349), which replaces the attributes of the classified node (its
`operator` attribute, inputs, outputs and provider tag untouched). -/
theorem processNodeCore_graph_shape (apply : Bool) (st : CState) (j : Nat)
    (g : Graph) (n : PNode) (st' : CState) (b : Bool)
    (h : processNodeCore apply st j g n = .ok (st', b)) :
    st'.graph = st.graph ∨
    (apply = true ∧ n.op = .pythonOp ∧ ∃ a' : Attrs,
      a'.operator = n.attrs.operator ∧
      st'.graph = { g with nodes := g.nodes.set j ({ n with attrs := a' }) }) := by
  unfold processNodeCore at h
  by_cases h1 : (n.op = .add ∨ n.op = .biasGelu ∨ n.op = .sub ∨ n.op = .mul)
  · rw [if_pos h1] at h
    by_cases h2 : ¬(inp n 0 ∈ st.subgraph ∨ inp n 1 ∈ st.subgraph)
    · rw [if_pos h2] at h; exact Except.noConfusion h
    · rw [if_neg h2] at h
      cases hs0 : shapeOfArg g (inp n 0) with
      | none =>
        rw [hs0] at h
        cases hs1 : shapeOfArg g (inp n 1) <;> rw [hs1] at h <;> dsimp only at h <;>
          (injection h with hp; injection hp with h3 h4; exact Or.inl (by rw [← h3]))
      | some s0 =>
        rw [hs0] at h
        cases hs1 : shapeOfArg g (inp n 1) with
        | none =>
          rw [hs1] at h; dsimp only at h
          injection h with hp; injection hp with h3 h4; exact Or.inl (by rw [← h3])
        | some s1 =>
          rw [hs1] at h; dsimp only at h
          by_cases h3 : (inp n 0 ∉ st.subgraph ∧ s0.length > s1.length ∨
                         inp n 1 ∉ st.subgraph ∧ s1.length > s0.length)
          · rw [if_pos h3] at h
            injection h with hp; injection hp with h3 h4; exact Or.inl (by rw [← h3])
          · rw [if_neg h3] at h
            injection h with hp; injection hp with h3 h4; exact Or.inl (by rw [← h3])
  · rw [if_neg h1] at h
    by_cases h2 : (n.op = .layerNorm ∨ n.op = .simplifiedLayerNorm)
    · rw [if_pos h2] at h
      by_cases h3 : inp n 0 ∉ st.subgraph
      · rw [if_pos h3] at h
        injection h with hp; injection hp with h3 h4; exact Or.inl (by rw [← h3])
      · rw [if_neg h3] at h
        cases hs : shapeOfArg g (inp n 0) with
        | none =>
          rw [hs] at h; dsimp only at h
          injection h with hp; injection hp with h3 h4; exact Or.inl (by rw [← h3])
        | some s =>
          rw [hs] at h; dsimp only at h
          cases ha : n.attrs.axis with
          | none => rw [ha] at h; exact Except.noConfusion h
          | some a =>
            rw [ha] at h; dsimp only at h
            by_cases h4 : ((if a < 0 then a + (s.length : Int) else a) < 2)
            · rw [if_pos h4] at h
              injection h with hp; injection hp with h3 h4; exact Or.inl (by rw [← h3])
            · rw [if_neg h4] at h
              injection h with hp; injection hp with h3 h4; exact Or.inl (by rw [← h3])
    · rw [if_neg h2] at h
      by_cases h3 : n.op = .dropout
      · rw [if_pos h3] at h
        by_cases h4 : inp n 0 ∉ st.subgraph
        · rw [if_pos h4] at h; exact Except.noConfusion h
        · rw [if_neg h4] at h
          injection h with hp; injection hp with h3 h4; exact Or.inl (by rw [← h3])
      · rw [if_neg h3] at h
        by_cases h4 : (n.op = .cast ∨ n.op = .gelu)
        · rw [if_pos h4] at h
          by_cases h5 : inp n 0 ∉ st.subgraph
          · rw [if_pos h5] at h; exact Except.noConfusion h
          · rw [if_neg h5] at h
            injection h with hp; injection hp with h3 h4; exact Or.inl (by rw [← h3])
        · rw [if_neg h4] at h
          by_cases h5 : (n.op = .matmul ∨ n.op = .matmulBnb4)
          · rw [if_pos h5] at h
            by_cases h6 : inp n 0 ∈ st.subgraph
            · rw [if_pos h6] at h
              cases hs : shapeOfArg g (inp n 0) with
              | none => rw [hs] at h; exact Except.noConfusion h
              | some s =>
                rw [hs] at h; dsimp only at h
                by_cases h7 : (s.length > 2)
                · rw [if_pos h7] at h
                  injection h with hp; injection hp with h3 h4
                  exact Or.inl (by rw [← h3])
                · rw [if_neg h7] at h
                  injection h with hp; injection hp with h3 h4
                  exact Or.inl (by rw [← h3])
            · rw [if_neg h6] at h
              by_cases h7 : inp n 1 ∈ st.subgraph
              · rw [if_pos h7] at h
                injection h with hp; injection hp with h3 h4
                exact Or.inl (by rw [← h3])
              · rw [if_neg h7] at h; exact Except.noConfusion h
          · rw [if_neg h5] at h
            by_cases h6 : n.op = .pythonOp
            · rw [if_pos h6] at h
              by_cases h7 : inp n 0 ∉ st.subgraph
              · rw [if_pos h7] at h
                injection h with hp; injection hp with h3 h4
                exact Or.inl (by rw [← h3])
              · rw [if_neg h7] at h
                cases hf : n.attrs.funcName with
                | none => rw [hf] at h; exact Except.noConfusion h
                | some fn =>
                  rw [hf] at h; dsimp only at h
                  by_cases h8 : (fn = inspectActivationFuncName ∨ fn = incrementStepFuncName)
                  · rw [if_pos h8] at h
                    cases happ : apply with
                    | false =>
                      rw [happ] at h
                      injection h with hp; injection hp with h3 h4
                      refine Or.inl ?_
                      rw [← h3]
                      by_cases h9 : fn = inspectActivationFuncName
                      · rw [if_pos h9]
                        cases hos : shapeOfArg g (outp n 0) <;> rfl
                      · rw [if_neg h9]
                    | true =>
                      rw [happ] at h
                      cases hir : n.attrs.inputTensorRanks with
                      | none => rw [hir] at h; exact Except.noConfusion h
                      | some irs =>
                        rw [hir] at h; dsimp only at h
                        by_cases h9 : (irs.length = 1 ∧ 2 ≤ irs.getD 0 0)
                        · rw [if_pos h9] at h
                          cases hor : n.attrs.outputTensorRanks with
                          | none => rw [hor] at h; exact Except.noConfusion h
                          | some ors =>
                            rw [hor] at h; dsimp only at h
                            by_cases h10 : (ors.length = 1 ∧ 2 ≤ ors.getD 0 0)
                            · rw [if_pos h10] at h
                              injection h with hp; injection hp with h3 h4
                              refine Or.inr ⟨rfl, h6,
                                ⟨{ n.attrs with
                                    inputTensorRanks := some [irs.getD 0 0 - 1]
                                    outputTensorRanks := some [ors.getD 0 0 - 1] },
                                 rfl, ?_⟩⟩
                              rw [← h3]
                            · rw [if_neg h10] at h; exact Except.noConfusion h
                        · rw [if_neg h9] at h; exact Except.noConfusion h
                  · rw [if_neg h8] at h
                    injection h with hp; injection hp with h3 h4
                    refine Or.inl ?_
                    rw [← h3]
                    by_cases h9 : fn = inspectActivationFuncName
                    · rw [if_pos h9]
                      cases hos : shapeOfArg g (outp n 0) <;> rfl
                    · rw [if_neg h9]
            · rw [if_neg h6] at h
              by_cases h7 : n.op = .reduceMean
              · rw [if_pos h7] at h
                cases hs : shapeOfArg g (inp n 0) with
                | none =>
                  rw [hs] at h; dsimp only at h
                  injection h with hp; injection hp with h3 h4
                  exact Or.inl (by rw [← h3])
                | some s =>
                  rw [hs] at h; dsimp only at h
                  cases ha : n.attrs.axes with
                  | none => rw [ha] at h; exact Except.noConfusion h
                  | some axs =>
                    rw [ha] at h; dsimp only at h
                    by_cases h8 : (axs.length > 0 ∧
                        ∀ a ∈ axs, ¬((if a < 0 then a + (s.length : Int) else a) < 2))
                    · rw [if_pos h8] at h
                      injection h with hp; injection hp with h3 h4
                      exact Or.inl (by rw [← h3])
                    · rw [if_neg h8] at h
                      injection h with hp; injection hp with h3 h4
                      exact Or.inl (by rw [← h3])
              · rw [if_neg h7] at h
                injection h with hp; injection hp with h3 h4
                exact Or.inl (by rw [← h3])

theorem processNode_false_graph (st : CState) (j : Nat) (st' : CState) (b : Bool)
    (h : processNode false st j = .ok (st', b)) : st'.graph = st.graph := by
  rcases processNodeCore_graph_shape false st j st.graph (nodeAt st.graph j) st' b h with
    hg | ⟨hap, -⟩
  · exact hg
  · exact absurd hap (by decide)


/-- In lightweight mode the whole classification loop never mutates the
graph. -/
theorem iterateLoop_false_graph : ∀ (fuel : Nat) (q : List Nat) (st st' : CState),
    iterateLoop false fuel q st = .ok st' → st'.graph = st.graph := by
  intro fuel
  induction fuel with
  | zero =>
    intro q st st' h
    cases q with
    | nil => cases h; rfl
    | cons c cs => cases h
  | succ m ih =>
    intro q st st' h
    cases q with
    | nil => cases h; rfl
    | cons c cs =>
      unfold iterateLoop at h
      dsimp only at h
      cases hp : processNode false
          { st with visited := insertId st.visited c
                    visitLog := st.visitLog ++ [c] } c with
      | error e => rw [hp] at h; cases h
      | ok p =>
        rw [hp] at h
        have h1 := ih _ _ _ h
        have h2 := processNode_false_graph _ _ _ _ hp
        rw [h1, h2]

/-- Claim C7: whenever a precondition of the pass is inapplicable — empty
sparse-embedding input list, no qualifying anchor, no shape on the anchor's
token-id input, a trailing dimension of that shape without a static value, or
lightweight mode with no instrumentation hook recorded — the pass returns
success with the graph unmodified and the modified flag unset. -/
theorem C7_inapplicable_preconditions_noop (enable : Bool) (sparse : List Nat)
    (fuel : Nat) (g : Graph) :
    (sparse = [] → applyImpl enable sparse fuel g = .ok (g, false)) ∧
    (findAnchor g sparse = none → applyImpl enable sparse fuel g = .ok (g, false)) ∧
    (∀ aidx ids, findAnchor g sparse = some (aidx, ids) →
      shapeOfArg g ids = none → applyImpl enable sparse fuel g = .ok (g, false)) ∧
    (∀ aidx ids s, findAnchor g sparse = some (aidx, ids) →
      shapeOfArg g ids = some s → trailingDimsOk s = false →
      applyImpl enable sparse fuel g = .ok (g, false)) ∧
    (∀ aidx ids s st, enable = false →
      findAnchor g sparse = some (aidx, ids) →
      shapeOfArg g ids = some s → trailingDimsOk s = true →
      iterateSubgraphFromNode false fuel g aidx
        ((nodeAt g aidx).outputs.foldl insertId []) = .ok st →
      st.inspectRanks = [] →
      applyImpl enable sparse fuel g = .ok (g, false)) := by
  by_cases hsp : sparse.isEmpty
  · have hout : applyImpl enable sparse fuel g = .ok (g, false) := by
      unfold applyImpl; rw [if_pos hsp]
    exact ⟨fun _ => hout, fun _ => hout, fun _ _ _ _ => hout, fun _ _ _ _ _ _ => hout,
           fun _ _ _ _ _ _ _ _ _ _ => hout⟩
  · refine ⟨fun he => absurd (by rw [he]; rfl) hsp, ?_, ?_, ?_, ?_⟩
    · intro hfa
      unfold applyImpl; rw [if_neg hsp, hfa]
    · intro aidx ids hfa hs
      unfold applyImpl; rw [if_neg hsp, hfa]; dsimp only; rw [hs]
    · intro aidx ids s hfa hs htr
      unfold applyImpl; rw [if_neg hsp, hfa]; dsimp only; rw [hs]
      dsimp only
      rw [htr]
      rfl
    · intro aidx ids s st hen hfa hs htr hit hins
      subst hen
      have hst : st.graph = g := by
        unfold iterateSubgraphFromNode at hit
        exact iterateLoop_false_graph _ _ _ _ hit
      unfold applyImpl; rw [if_neg hsp, hfa]; dsimp only; rw [hs]
      dsimp only
      rw [htr, if_pos rfl, hit]
      dsimp only
      rw [if_pos ⟨rfl, List.isEmpty_iff.mpr hins⟩, hst]

/-- Witness for `C7_inapplicable_preconditions_noop`: an empty
sparse-embedding input list on a concrete graph. -/
theorem C7_inapplicable_preconditions_noop_witness :
    applyImpl true [] 5 gSingleAnchor = .ok (gSingleAnchor, false) :=
  (C7_inapplicable_preconditions_noop true [] 5 gSingleAnchor).1 rfl

/-! ### Basic properties of `Preserves` -/

theorem preserves_self {g : Graph} (hwf : WF g) : Preserves g g where
  len_le := Nat.le_refl _
  fresh_le := Nat.le_refl _
  old_op := fun _ _ => rfl
  old_operator := fun _ _ => rfl
  old_prov := fun _ _ => rfl
  old_inlen := fun _ _ => rfl
  old_out := fun _ _ => rfl
  old_inp := fun _ _ _ => Or.inl rfl
  new_not_aten := fun j hle hlt => absurd (Nat.lt_of_le_of_lt hle hlt) (Nat.lt_irrefl _)
  gin_eq := rfl
  init_pres := fun _ _ => rfl
  init_fresh_none := fun a hfr hout => absurd (hwf.out_lt a hout) (Nat.not_lt.mpr hfr)
  out_mono := fun _ h => h
  out_bound := fun _ h => Or.inl h
  shapes_pres := fun _ _ => rfl

theorem Preserves.trans {g₀ g₁ g₂ : Graph} (p : Preserves g₀ g₁)
    (q : Preserves g₁ g₂) : Preserves g₀ g₂ where
  len_le := Nat.le_trans p.len_le q.len_le
  fresh_le := Nat.le_trans p.fresh_le q.fresh_le
  old_op := fun j hj => (q.old_op j (Nat.lt_of_lt_of_le hj p.len_le)).trans (p.old_op j hj)
  old_operator := fun j hj =>
    (q.old_operator j (Nat.lt_of_lt_of_le hj p.len_le)).trans (p.old_operator j hj)
  old_prov := fun j hj =>
    (q.old_prov j (Nat.lt_of_lt_of_le hj p.len_le)).trans (p.old_prov j hj)
  old_inlen := fun j hj =>
    (q.old_inlen j (Nat.lt_of_lt_of_le hj p.len_le)).trans (p.old_inlen j hj)
  old_out := fun j hj =>
    (q.old_out j (Nat.lt_of_lt_of_le hj p.len_le)).trans (p.old_out j hj)
  old_inp := fun j i hj => by
    rcases q.old_inp j i (Nat.lt_of_lt_of_le hj p.len_le) with h2 | ⟨h2f, h2o⟩
    · rw [h2]
      rcases p.old_inp j i hj with h1 | ⟨h1f, h1o⟩
      · exact Or.inl h1
      · exact Or.inr ⟨h1f, q.out_mono _ h1o⟩
    · exact Or.inr ⟨Nat.le_trans p.fresh_le h2f, h2o⟩
  new_not_aten := fun j hle hlt => by
    by_cases hj : j < g₁.nodes.length
    · rw [q.old_op j hj]
      exact p.new_not_aten j hle hj
    · exact q.new_not_aten j (Nat.not_lt.mp hj) hlt
  gin_eq := q.gin_eq.trans p.gin_eq
  init_pres := fun a ha =>
    (q.init_pres a (Nat.lt_of_lt_of_le ha p.fresh_le)).trans (p.init_pres a ha)
  init_fresh_none := fun a hfr hout => by
    by_cases ha : a < g₁.fresh
    · rw [q.init_pres a ha]
      rcases q.out_bound a hout with h | h
      · exact p.init_fresh_none a hfr h
      · exact absurd h (Nat.not_le.mpr ha)
    · exact q.init_fresh_none a (Nat.not_lt.mp ha) hout
  out_mono := fun a h => q.out_mono a (p.out_mono a h)
  out_bound := fun a h => by
    rcases q.out_bound a h with h | h
    · exact p.out_bound a h
    · exact Or.inr (Nat.le_trans p.fresh_le h)
  shapes_pres := fun a ha =>
    (q.shapes_pres a (p.gin_eq ▸ ha)).trans (p.shapes_pres a ha)

/-! ### List and lookup helper lemmas -/

theorem getD_mem {α : Type} (l : List α) (j : Nat) (d : α) (h : j < l.length) :
    l.getD j d ∈ l := by
  rw [List.getD_eq_getElem?_getD, List.getElem?_eq_getElem h]
  exact List.getElem_mem _

theorem getD_append_last {α : Type} (l : List α) (e d : α) :
    (l ++ [e]).getD l.length d = e := by
  rw [List.getD_eq_getElem?_getD, List.getElem?_append_right (Nat.le_refl _)]
  simp

theorem mem_outputsSet {g : Graph} {a : Nat} :
    a ∈ outputsSet g ↔ ∃ n ∈ g.nodes, a ∈ n.outputs := List.mem_flatMap

theorem outputsSet_append (g : Graph) (e : PNode) (gin : List Nat)
    (ini : List (Nat × InitInfo)) (shp : List (Nat × List Dim)) (fr : Nat) :
    outputsSet { nodes := g.nodes ++ [e], graphInputs := gin, inits := ini,
                 shapes := shp, fresh := fr } = outputsSet g ++ e.outputs := by
  unfold outputsSet
  rw [List.flatMap_append]
  simp

theorem flatMap_outputs_set (l : List PNode) (j : Nat) (n' : PNode)
    (hout : n'.outputs = (l.getD j default).outputs) :
    (l.set j n').flatMap (fun m => m.outputs) = l.flatMap (fun m => m.outputs) := by
  induction l generalizing j with
  | nil => rfl
  | cons x xs ih =>
    cases j with
    | zero => simp only [List.set, List.flatMap_cons, List.getD_cons_zero] at hout ⊢; rw [hout]
    | succ m =>
      simp only [List.set, List.flatMap_cons, List.getD_cons_succ] at hout ⊢
      rw [ih m hout]

theorem initLookup_keys_lt_none (g : Graph) (a : Nat)
    (hk : ∀ p ∈ g.inits, p.1 < a) : initLookup g a = none := by
  unfold initLookup
  rw [List.find?_eq_none.mpr]
  · rfl
  · intro p hp
    simp only [decide_eq_true_eq]
    exact Nat.ne_of_lt (hk p hp)

theorem find?_key_filter_ne {α : Type} (l : List (Nat × α)) (a b : Nat) (hne : b ≠ a) :
    (l.filter (fun p => p.1 ≠ a)).find? (fun p => p.1 = b) =
      l.find? (fun p => p.1 = b) := by
  induction l with
  | nil => rfl
  | cons x xs ih =>
    by_cases hx : x.1 = a
    · rw [List.filter_cons_of_neg (by simp [hx]),
          List.find?_cons_of_neg _ (by simp [hx]; exact fun h => hne h.symm), ih]
    · rw [List.filter_cons_of_pos (by simp [hx])]
      by_cases hb : x.1 = b
      · rw [List.find?_cons_of_pos _ (by simp [hb]), List.find?_cons_of_pos _ (by simp [hb])]
      · rw [List.find?_cons_of_neg _ (by simp [hb]), List.find?_cons_of_neg _ (by simp [hb]), ih]

theorem shapeOfArg_setShape_ne (g : Graph) (a b : Nat) (s : List Dim) (hne : b ≠ a) :
    shapeOfArg (setShape g a s) b = shapeOfArg g b := by
  unfold setShape shapeOfArg
  simp only []
  rw [List.find?_cons_of_neg _ (by simp [Ne.symm hne]), find?_key_filter_ne _ _ _ hne]

theorem consumersWithInputIdx_lt (g : Graph) (j : Nat) (c i : Nat)
    (h : (c, i) ∈ consumersWithInputIdx g j) : c < g.nodes.length := by
  unfold consumersWithInputIdx at h
  rcases List.mem_filterMap.mp h with ⟨c', hc', heq⟩
  rcases Option.map_eq_some'.mp heq with ⟨i', -, heq2⟩
  cases heq2
  exact List.mem_range.mp hc'

/-! ### Per-primitive step lemmas: each mutation primitive keeps the graph
well-formed and evolves it within `Preserves` -/

theorem addNode_step (g : Graph) (op : Op) (ins : List Nat) (k : Nat)
    (hwf : WF g) (hop : op ≠ .aten) (hopd : op ≠ .dropout) (hopp : op ≠ .pythonOp)
    (hk : 1 ≤ k) (hins : ∀ a ∈ ins, a < g.fresh) :
    WF (addNodeWithFreshOutputs g op ins k).1 ∧
    Preserves g (addNodeWithFreshOutputs g op ins k).1 := by
  unfold addNodeWithFreshOutputs
  dsimp only
  set e : PNode := { op := op, inputs := ins,
                     outputs := (List.range k).map (fun t => g.fresh + t) } with he
  have hoset : outputsSet ({ nodes := g.nodes ++ [e],
                             graphInputs := g.graphInputs,
                             inits := g.inits, shapes := g.shapes,
                             fresh := g.fresh + k } : Graph) =
      outputsSet g ++ e.outputs := outputsSet_append g e _ _ _ _
  have heout : ∀ a ∈ e.outputs, g.fresh ≤ a ∧ a < g.fresh + k := by
    intro a ha
    rw [he] at ha
    simp only [List.mem_map, List.mem_range] at ha
    obtain ⟨t, ht, rfl⟩ := ha
    omega
  have hatold : ∀ j, j < g.nodes.length →
      nodeAt ({ nodes := g.nodes ++ [e],
                graphInputs := g.graphInputs,
                inits := g.inits, shapes := g.shapes,
                fresh := g.fresh + k } : Graph) j =
      nodeAt g j := by
    intro j hj
    unfold nodeAt
    exact getD_append_left default hj
  refine ⟨⟨?_, ?_, ?_, ?_, ?_, ?_, ?_, ?_⟩, ⟨?_, ?_, ?_, ?_, ?_, ?_, ?_, ?_, ?_, ?_, ?_, ?_, ?_, ?_, ?_⟩⟩
  · intro a ha
    exact Nat.lt_of_lt_of_le (hwf.gi_lt a ha) (Nat.le_add_right _ _)
  · intro a ha
    rw [hoset] at ha
    rcases List.mem_append.mp ha with h | h
    · exact Nat.lt_of_lt_of_le (hwf.out_lt a h) (Nat.le_add_right _ _)
    · exact (heout a h).2
  · intro n hn a ha
    rcases List.mem_append.mp hn with h | h
    · exact Nat.lt_of_lt_of_le (hwf.in_lt n h a ha) (Nat.le_add_right _ _)
    · rcases List.mem_singleton.mp h with rfl
      exact Nat.lt_of_lt_of_le (hins a ha) (Nat.le_add_right _ _)
  · intro p hp
    exact Nat.lt_of_lt_of_le (hwf.init_lt p hp) (Nat.le_add_right _ _)
  · intro a ha hmem
    rw [hoset] at hmem
    rcases List.mem_append.mp hmem with h | h
    · exact hwf.gi_not_out a ha h
    · exact absurd (heout a h).1 (Nat.not_le.mpr (hwf.gi_lt a ha))
  · intro p hp hmem
    rw [hoset] at hmem
    rcases List.mem_append.mp hmem with h | h
    · exact hwf.init_not_out p hp h
    · exact absurd (heout p.1 h).1 (Nat.not_le.mpr (hwf.init_lt p hp))
  · intro n hn
    rcases List.mem_append.mp hn with h | h
    · exact hwf.prim_out n h
    · rcases List.mem_singleton.mp h with rfl
      simp [he, hk]
  · intro n hn hd
    rcases List.mem_append.mp hn with h | h
    · exact hwf.sec_out n h hd
    · rcases List.mem_singleton.mp h with rfl
      rcases hd with hd | hd
      · exact absurd hd hopd
      · exact absurd hd hopp
  · simp
  · exact Nat.le_add_right _ _
  · intro j hj; rw [hatold j hj]
  · intro j hj; rw [hatold j hj]
  · intro j hj; rw [hatold j hj]
  · intro j hj; rw [hatold j hj]
  · intro j hj; rw [hatold j hj]
  · intro j i hj; rw [hatold j hj]; exact Or.inl rfl
  · intro j hle hlt
    simp at hlt
    have hj : j = g.nodes.length := by omega
    subst hj
    unfold nodeAt
    rw [getD_append_last]
    simpa [he] using hop
  · rfl
  · intro a ha; rfl
  · intro a hfr hout
    exact initLookup_keys_lt_none _ a
      (fun p hp => Nat.lt_of_lt_of_le (hwf.init_lt p hp) hfr)
  · intro a ha
    rw [hoset]
    exact List.mem_append.mpr (Or.inl ha)
  · intro a ha
    rw [hoset] at ha
    rcases List.mem_append.mp ha with h | h
    · exact Or.inl h
    · exact Or.inr (heout a h).1
  · intro a ha; rfl

theorem addInitArg_step (g : Graph) (info : InitInfo) (hwf : WF g) :
    WF (addInitArg g info).1 ∧ Preserves g (addInitArg g info).1 := by
  unfold addInitArg
  have hoset : outputsSet ({ g with inits := g.inits ++ [(g.fresh, info)], fresh := g.fresh + 1 }) = outputsSet g := rfl
  have hlook : ∀ a, a < g.fresh →
      initLookup ({ g with inits := g.inits ++ [(g.fresh, info)], fresh := g.fresh + 1 }) a = initLookup g a := by
    intro a ha
    unfold initLookup
    simp only []
    rw [List.find?_append]
    cases hf : g.inits.find? (fun p => p.1 = a) with
    | some p => simp [Option.or]
    | none =>
      simp only [Option.or]
      rw [List.find?_cons_of_neg _ (by simp; omega)]
      rfl
  refine ⟨⟨?_, ?_, ?_, ?_, ?_, ?_, ?_, ?_⟩, ⟨?_, ?_, ?_, ?_, ?_, ?_, ?_, ?_, ?_, ?_, ?_, ?_, ?_, ?_, ?_⟩⟩
  · intro a ha
    exact Nat.lt_of_lt_of_le (hwf.gi_lt a ha) (Nat.le_add_right _ _)
  · intro a ha
    exact Nat.lt_of_lt_of_le (hwf.out_lt a ha) (Nat.le_add_right _ _)
  · intro n hn a ha
    exact Nat.lt_of_lt_of_le (hwf.in_lt n hn a ha) (Nat.le_add_right _ _)
  · intro p hp
    rcases List.mem_append.mp hp with h | h
    · exact Nat.lt_of_lt_of_le (hwf.init_lt p h) (Nat.le_add_right _ _)
    · rcases List.mem_singleton.mp h with rfl
      exact Nat.lt_succ_self _
  · intro a ha hmem
    exact hwf.gi_not_out a ha hmem
  · intro p hp hmem
    rcases List.mem_append.mp hp with h | h
    · exact hwf.init_not_out p h hmem
    · rcases List.mem_singleton.mp h with rfl
      exact absurd (hwf.out_lt _ hmem) (Nat.lt_irrefl _)
  · intro n hn
    exact hwf.prim_out n hn
  · intro n hn hd
    exact hwf.sec_out n hn hd
  · exact Nat.le_refl _
  · exact Nat.le_add_right _ _
  · intro j hj; rfl
  · intro j hj; rfl
  · intro j hj; rfl
  · intro j hj; rfl
  · intro j hj; rfl
  · intro j i hj; exact Or.inl rfl
  · intro j hle hlt
    exact absurd (Nat.lt_of_le_of_lt hle hlt) (Nat.lt_irrefl _)
  · rfl
  · exact hlook
  · intro a hfr hout
    exact absurd (hwf.out_lt a hout) (Nat.not_lt.mpr hfr)
  · intro a ha; exact ha
  · intro a ha; exact Or.inl ha
  · intro a ha; rfl

theorem setShape_step (g : Graph) (a : Nat) (s : List Dim) (hgi : a ∉ g.graphInputs)
    (hwf : WF g) : WF (setShape g a s) ∧ Preserves g (setShape g a s) := by
  have hnodes : (setShape g a s).nodes = g.nodes := rfl
  have hoset : outputsSet (setShape g a s) = outputsSet g := rfl
  refine ⟨⟨?_, ?_, ?_, ?_, ?_, ?_, ?_, ?_⟩, ⟨?_, ?_, ?_, ?_, ?_, ?_, ?_, ?_, ?_, ?_, ?_, ?_, ?_, ?_, ?_⟩⟩
  · exact hwf.gi_lt
  · exact hwf.out_lt
  · exact hwf.in_lt
  · exact hwf.init_lt
  · exact hwf.gi_not_out
  · exact hwf.init_not_out
  · exact hwf.prim_out
  · exact hwf.sec_out
  · exact Nat.le_refl _
  · exact Nat.le_refl _
  · intro j hj; rfl
  · intro j hj; rfl
  · intro j hj; rfl
  · intro j hj; rfl
  · intro j hj; rfl
  · intro j i hj; exact Or.inl rfl
  · intro j hle hlt
    exact absurd (Nat.lt_of_le_of_lt hle hlt) (Nat.lt_irrefl _)
  · rfl
  · intro b hb; rfl
  · intro b hfr hout
    exact absurd (hwf.out_lt b hout) (Nat.not_lt.mpr hfr)
  · intro b hb; exact hb
  · intro b hb; exact Or.inl hb
  · intro b hb
    exact shapeOfArg_setShape_ne g a b s (fun h => hgi (h ▸ hb))

theorem mem_insertId {l : List Nat} {x a : Nat} : a ∈ insertId l x ↔ a ∈ l ∨ a = x := by
  unfold insertId
  by_cases hx : x ∈ l
  · rw [if_pos hx]
    constructor
    · exact fun h => Or.inl h
    · rintro (h | rfl)
      · exact h
      · exact hx
  · rw [if_neg hx]
    simp

theorem graphSet_step (g : Graph) (j : Nat) (a' : Attrs)
    (hop : a'.operator = (nodeAt g j).attrs.operator) (hwf : WF g) :
    WF { g with nodes := g.nodes.set j { nodeAt g j with attrs := a' } } ∧
    Preserves g { g with nodes := g.nodes.set j { nodeAt g j with attrs := a' } } ∧
    outputsSet { g with nodes := g.nodes.set j { nodeAt g j with attrs := a' } } =
      outputsSet g := by
  by_cases hj : j < g.nodes.length
  case neg =>
    have hset : g.nodes.set j { nodeAt g j with attrs := a' } = g.nodes :=
      List.set_eq_of_length_le (Nat.not_lt.mp hj)
    rw [hset]
    exact ⟨hwf, preserves_self hwf, rfl⟩
  case pos =>
    have houts : outputsSet { g with nodes := g.nodes.set j { nodeAt g j with attrs := a' } } =
        outputsSet g := flatMap_outputs_set _ _ _ rfl
    have hAtj : nodeAt { g with nodes := g.nodes.set j { nodeAt g j with attrs := a' } } j =
        { nodeAt g j with attrs := a' } := getD_set_self _ _ hj
    have hAtne : ∀ t, j ≠ t →
        nodeAt { g with nodes := g.nodes.set j { nodeAt g j with attrs := a' } } t =
          nodeAt g t := fun t ht => getD_set_ne _ _ ht
    refine ⟨⟨?_, ?_, ?_, ?_, ?_, ?_, ?_, ?_⟩, ⟨?_, ?_, ?_, ?_, ?_, ?_, ?_, ?_, ?_, ?_, ?_, ?_, ?_, ?_, ?_⟩, houts⟩
    · exact hwf.gi_lt
    · intro a ha
      exact hwf.out_lt a (houts ▸ ha)
    · intro m hm a ha
      rcases List.mem_or_eq_of_mem_set hm with h | rfl
      · exact hwf.in_lt m h a ha
      · exact hwf.in_lt _ (getD_mem _ _ _ hj) a ha
    · exact hwf.init_lt
    · intro a ha
      rw [houts]
      exact hwf.gi_not_out a ha
    · intro p hp
      rw [houts]
      exact hwf.init_not_out p hp
    · intro m hm
      rcases List.mem_or_eq_of_mem_set hm with h | rfl
      · exact hwf.prim_out m h
      · exact hwf.prim_out (nodeAt g j) (getD_mem g.nodes j default hj)
    · intro m hm hd
      rcases List.mem_or_eq_of_mem_set hm with h | rfl
      · exact hwf.sec_out m h hd
      · exact hwf.sec_out (nodeAt g j) (getD_mem g.nodes j default hj) hd
    · exact Nat.le_of_eq (List.length_set _ _ _).symm
    · exact Nat.le_refl _
    · intro t ht
      by_cases hjt : j = t
      · subst hjt
        rw [hAtj]
      · rw [hAtne t hjt]
    · intro t ht
      by_cases hjt : j = t
      · subst hjt
        rw [hAtj]
        exact hop
      · rw [hAtne t hjt]
    · intro t ht
      by_cases hjt : j = t
      · subst hjt
        rw [hAtj]
      · rw [hAtne t hjt]
    · intro t ht
      by_cases hjt : j = t
      · subst hjt
        rw [hAtj]
      · rw [hAtne t hjt]
    · intro t ht
      by_cases hjt : j = t
      · subst hjt
        rw [hAtj]
      · rw [hAtne t hjt]
    · intro t i ht
      refine Or.inl ?_
      by_cases hjt : j = t
      · subst hjt
        rw [hAtj]
      · rw [hAtne t hjt]
    · intro t hle hlt
      rw [List.length_set] at hlt
      exact absurd (Nat.lt_of_le_of_lt hle hlt) (Nat.lt_irrefl _)
    · rfl
    · intro a ha; rfl
    · intro a hfr hout
      exact absurd (hwf.out_lt a (houts ▸ hout)) (Nat.not_lt.mpr hfr)
    · intro a ha
      rw [houts]
      exact ha
    · intro a ha
      exact Or.inl (houts ▸ ha)
    · intro a ha; rfl

theorem processNodeCore_sets (apply : Bool) (st : CState) (j : Nat)
    (g : Graph) (n : PNode) (st' : CState) (b : Bool)
    (h : processNodeCore apply st j g n = .ok (st', b)) :
    (∀ a ∈ st'.subgraph, a ∈ st.subgraph ∨ a = outp n 0 ∨
        (a = outp n 1 ∧ (n.op = .dropout ∨ n.op = .pythonOp))) ∧
    (∀ k ∈ st'.skipNodes, k ∈ st.skipNodes ∨ k = j) := by
  unfold processNodeCore at h
  by_cases h1 : (n.op = .add ∨ n.op = .biasGelu ∨ n.op = .sub ∨ n.op = .mul)
  · rw [if_pos h1] at h
    by_cases h2 : ¬(inp n 0 ∈ st.subgraph ∨ inp n 1 ∈ st.subgraph)
    · rw [if_pos h2] at h; exact Except.noConfusion h
    · rw [if_neg h2] at h
      cases hs0 : shapeOfArg g (inp n 0) with
      | none =>
        rw [hs0] at h
        cases hs1 : shapeOfArg g (inp n 1) <;> rw [hs1] at h <;> dsimp only at h <;>
          (injection h with hp; injection hp with h3 h4; rw [← h3];
           exact ⟨fun a ha => Or.inl ha, fun k hk => Or.inl hk⟩)
      | some s0 =>
        rw [hs0] at h
        cases hs1 : shapeOfArg g (inp n 1) with
        | none =>
          rw [hs1] at h; dsimp only at h
          injection h with hp; injection hp with h3 h4; rw [← h3]
          exact ⟨fun a ha => Or.inl ha, fun k hk => Or.inl hk⟩
        | some s1 =>
          rw [hs1] at h; dsimp only at h
          by_cases h3 : (inp n 0 ∉ st.subgraph ∧ s0.length > s1.length ∨
                         inp n 1 ∉ st.subgraph ∧ s1.length > s0.length)
          · rw [if_pos h3] at h
            injection h with hp; injection hp with h3 h4; rw [← h3]
            exact ⟨fun a ha => Or.inl ha, fun k hk => Or.inl hk⟩
          · rw [if_neg h3] at h
            injection h with hp; injection hp with h3 h4; rw [← h3]
            exact ⟨fun a ha => (mem_insertId.mp ha).elim Or.inl (fun hh => Or.inr (Or.inl hh)),
                   fun k hk => mem_insertId.mp hk⟩
  · rw [if_neg h1] at h
    by_cases h2 : (n.op = .layerNorm ∨ n.op = .simplifiedLayerNorm)
    · rw [if_pos h2] at h
      by_cases h3 : inp n 0 ∉ st.subgraph
      · rw [if_pos h3] at h
        injection h with hp; injection hp with h3 h4; rw [← h3]
        exact ⟨fun a ha => Or.inl ha, fun k hk => Or.inl hk⟩
      · rw [if_neg h3] at h
        cases hs : shapeOfArg g (inp n 0) with
        | none =>
          rw [hs] at h; dsimp only at h
          injection h with hp; injection hp with h3 h4; rw [← h3]
          exact ⟨fun a ha => Or.inl ha, fun k hk => Or.inl hk⟩
        | some s =>
          rw [hs] at h; dsimp only at h
          cases ha : n.attrs.axis with
          | none => rw [ha] at h; exact Except.noConfusion h
          | some a =>
            rw [ha] at h; dsimp only at h
            by_cases h4 : ((if a < 0 then a + (s.length : Int) else a) < 2)
            · rw [if_pos h4] at h
              injection h with hp; injection hp with h3 h4; rw [← h3]
              exact ⟨fun a ha => Or.inl ha, fun k hk => Or.inl hk⟩
            · rw [if_neg h4] at h
              injection h with hp; injection hp with h3 h4; rw [← h3]
              exact ⟨fun a ha => (mem_insertId.mp ha).elim Or.inl (fun hh => Or.inr (Or.inl hh)),
                     fun k hk => mem_insertId.mp hk⟩
    · rw [if_neg h2] at h
      by_cases h3 : n.op = .dropout
      · rw [if_pos h3] at h
        by_cases h4 : inp n 0 ∉ st.subgraph
        · rw [if_pos h4] at h; exact Except.noConfusion h
        · rw [if_neg h4] at h
          injection h with hp; injection hp with h5 h6; rw [← h5]
          refine ⟨fun a ha => ?_, fun k hk => Or.inl hk⟩
          rcases mem_insertId.mp ha with hh | rfl
          · rcases mem_insertId.mp hh with hh2 | rfl
            · exact Or.inl hh2
            · exact Or.inr (Or.inl rfl)
          · exact Or.inr (Or.inr ⟨rfl, Or.inl h3⟩)
      · rw [if_neg h3] at h
        by_cases h4 : (n.op = .cast ∨ n.op = .gelu)
        · rw [if_pos h4] at h
          by_cases h5 : inp n 0 ∉ st.subgraph
          · rw [if_pos h5] at h; exact Except.noConfusion h
          · rw [if_neg h5] at h
            injection h with hp; injection hp with h6 h7; rw [← h6]
            exact ⟨fun a ha => (mem_insertId.mp ha).elim Or.inl (fun hh => Or.inr (Or.inl hh)),
                   fun k hk => mem_insertId.mp hk⟩
        · rw [if_neg h4] at h
          by_cases h5 : (n.op = .matmul ∨ n.op = .matmulBnb4)
          · rw [if_pos h5] at h
            by_cases h6 : inp n 0 ∈ st.subgraph
            · rw [if_pos h6] at h
              cases hs : shapeOfArg g (inp n 0) with
              | none => rw [hs] at h; exact Except.noConfusion h
              | some s =>
                rw [hs] at h; dsimp only at h
                by_cases h7 : (s.length > 2)
                · rw [if_pos h7] at h
                  injection h with hp; injection hp with h8 h9; rw [← h8]
                  exact ⟨fun a ha =>
                      (mem_insertId.mp ha).elim Or.inl (fun hh => Or.inr (Or.inl hh)),
                    fun k hk => mem_insertId.mp hk⟩
                · rw [if_neg h7] at h
                  injection h with hp; injection hp with h8 h9; rw [← h8]
                  exact ⟨fun a ha => Or.inl ha, fun k hk => Or.inl hk⟩
            · rw [if_neg h6] at h
              by_cases h7 : inp n 1 ∈ st.subgraph
              · rw [if_pos h7] at h
                injection h with hp; injection hp with h8 h9; rw [← h8]
                exact ⟨fun a ha => Or.inl ha, fun k hk => Or.inl hk⟩
              · rw [if_neg h7] at h; exact Except.noConfusion h
          · rw [if_neg h5] at h
            by_cases h6 : n.op = .pythonOp
            · rw [if_pos h6] at h
              by_cases h7 : inp n 0 ∉ st.subgraph
              · rw [if_pos h7] at h
                injection h with hp; injection hp with h8 h9; rw [← h8]
                exact ⟨fun a ha => Or.inl ha, fun k hk => Or.inl hk⟩
              · rw [if_neg h7] at h
                cases hf : n.attrs.funcName with
                | none => rw [hf] at h; exact Except.noConfusion h
                | some fn =>
                  rw [hf] at h; dsimp only at h
                  by_cases h8 : (fn = inspectActivationFuncName ∨ fn = incrementStepFuncName)
                  · rw [if_pos h8] at h
                    cases happ : apply with
                    | false =>
                      rw [happ] at h
                      injection h with hp; injection hp with h9 h10
                      rw [← h9]
                      by_cases h11 : fn = inspectActivationFuncName
                      · rw [if_pos h11]
                        cases hos : shapeOfArg g (outp n 0) <;>
                          exact ⟨fun a ha =>
                              (mem_insertId.mp ha).elim Or.inl
                                (fun hh => Or.inr (Or.inr ⟨hh, Or.inr h6⟩)),
                            fun k hk => Or.inl hk⟩
                      · rw [if_neg h11]
                        exact ⟨fun a ha =>
                            (mem_insertId.mp ha).elim Or.inl
                              (fun hh => Or.inr (Or.inr ⟨hh, Or.inr h6⟩)),
                          fun k hk => Or.inl hk⟩
                    | true =>
                      rw [happ] at h
                      cases hir : n.attrs.inputTensorRanks with
                      | none => rw [hir] at h; exact Except.noConfusion h
                      | some irs =>
                        rw [hir] at h; dsimp only at h
                        by_cases h9 : (irs.length = 1 ∧ 2 ≤ irs.getD 0 0)
                        · rw [if_pos h9] at h
                          cases hor : n.attrs.outputTensorRanks with
                          | none => rw [hor] at h; exact Except.noConfusion h
                          | some ors =>
                            rw [hor] at h; dsimp only at h
                            by_cases h10 : (ors.length = 1 ∧ 2 ≤ ors.getD 0 0)
                            · rw [if_pos h10] at h
                              injection h with hp; injection hp with h11 h12
                              rw [← h11]
                              by_cases h13 : fn = inspectActivationFuncName
                              · rw [if_pos h13]
                                cases hos : shapeOfArg g (outp n 0) <;>
                                  exact ⟨fun a ha =>
                                      (mem_insertId.mp ha).elim Or.inl
                                        (fun hh => Or.inr (Or.inr ⟨hh, Or.inr h6⟩)),
                                    fun k hk => Or.inl hk⟩
                              · rw [if_neg h13]
                                exact ⟨fun a ha =>
                                    (mem_insertId.mp ha).elim Or.inl
                                      (fun hh => Or.inr (Or.inr ⟨hh, Or.inr h6⟩)),
                                  fun k hk => Or.inl hk⟩
                            · rw [if_neg h10] at h; exact Except.noConfusion h
                        · rw [if_neg h9] at h; exact Except.noConfusion h
                  · rw [if_neg h8] at h
                    injection h with hp; injection hp with h9 h10
                    rw [← h9]
                    by_cases h11 : fn = inspectActivationFuncName
                    · rw [if_pos h11]
                      cases hos : shapeOfArg g (outp n 0) <;>
                        exact ⟨fun a ha => Or.inl ha, fun k hk => Or.inl hk⟩
                    · rw [if_neg h11]
                      exact ⟨fun a ha => Or.inl ha, fun k hk => Or.inl hk⟩
            · rw [if_neg h6] at h
              by_cases h7 : n.op = .reduceMean
              · rw [if_pos h7] at h
                cases hs : shapeOfArg g (inp n 0) with
                | none =>
                  rw [hs] at h; dsimp only at h
                  injection h with hp; injection hp with h8 h9; rw [← h8]
                  exact ⟨fun a ha => Or.inl ha, fun k hk => Or.inl hk⟩
                | some s =>
                  rw [hs] at h; dsimp only at h
                  cases ha : n.attrs.axes with
                  | none => rw [ha] at h; exact Except.noConfusion h
                  | some axs =>
                    rw [ha] at h; dsimp only at h
                    by_cases h8 : (axs.length > 0 ∧
                        ∀ a ∈ axs, ¬((if a < 0 then a + (s.length : Int) else a) < 2))
                    · rw [if_pos h8] at h
                      injection h with hp; injection hp with h9 h10; rw [← h9]
                      exact ⟨fun a ha =>
                          (mem_insertId.mp ha).elim Or.inl (fun hh => Or.inr (Or.inl hh)),
                        fun k hk => Or.inl hk⟩
                    · rw [if_neg h8] at h
                      injection h with hp; injection hp with h9 h10; rw [← h9]
                      exact ⟨fun a ha => Or.inl ha, fun k hk => Or.inl hk⟩
              · rw [if_neg h7] at h
                injection h with hp; injection hp with h8 h9; rw [← h8]
                exact ⟨fun a ha => Or.inl ha, fun k hk => Or.inl hk⟩

theorem processNode_step (apply : Bool) (st : CState) (j : Nat) (st' : CState)
    (b : Bool) (h : processNode apply st j = .ok (st', b)) (hwf : WF st.graph) :
    WF st'.graph ∧ Preserves st.graph st'.graph ∧
    st'.graph.nodes.length = st.graph.nodes.length ∧
    outputsSet st'.graph = outputsSet st.graph ∧
    st'.graph.fresh = st.graph.fresh ∧
    (∀ a ∈ st'.subgraph, a ∈ st.subgraph ∨ a = outp (nodeAt st.graph j) 0 ∨
        (a = outp (nodeAt st.graph j) 1 ∧
         ((nodeAt st.graph j).op = .dropout ∨ (nodeAt st.graph j).op = .pythonOp))) ∧
    (∀ k ∈ st'.skipNodes, k ∈ st.skipNodes ∨ k = j) := by
  have hsets := processNodeCore_sets apply st j st.graph (nodeAt st.graph j) st' b h
  rcases processNodeCore_graph_shape apply st j st.graph (nodeAt st.graph j) st' b h with
    hg | ⟨-, -, a', hop, hg⟩
  · rw [hg]
    exact ⟨hwf, preserves_self hwf, rfl, rfl, rfl, hsets.1, hsets.2⟩
  · obtain ⟨hwf', hpre', houts'⟩ := graphSet_step st.graph j a' hop hwf
    rw [hg]
    exact ⟨hwf', hpre', List.length_set _ _ _, houts', rfl, hsets.1, hsets.2⟩

theorem iterateLoop_inv (apply : Bool) : ∀ (fuel : Nat) (q : List Nat) (st st' : CState),
    iterateLoop apply fuel q st = .ok st' →
    WF st.graph →
    (∀ k ∈ q, k < st.graph.nodes.length) →
    (∀ a ∈ st.subgraph, a ∈ outputsSet st.graph) →
    (∀ k ∈ st.skipNodes, k < st.graph.nodes.length) →
    WF st'.graph ∧ Preserves st.graph st'.graph ∧
    st'.graph.nodes.length = st.graph.nodes.length ∧
    outputsSet st'.graph = outputsSet st.graph ∧
    st'.graph.fresh = st.graph.fresh ∧
    (∀ a ∈ st'.subgraph, a ∈ outputsSet st'.graph) ∧
    (∀ k ∈ st'.skipNodes, k < st'.graph.nodes.length) := by
  intro fuel
  induction fuel with
  | zero =>
    intro q st st' h hwf hq hsub hskip
    cases q with
    | nil => cases h; exact ⟨hwf, preserves_self hwf, rfl, rfl, rfl, hsub, hskip⟩
    | cons c cs => cases h
  | succ m ih =>
    intro q st st' h hwf hq hsub hskip
    cases q with
    | nil => cases h; exact ⟨hwf, preserves_self hwf, rfl, rfl, rfl, hsub, hskip⟩
    | cons c cs =>
      unfold iterateLoop at h
      dsimp only at h
      cases hp : processNode apply
          { st with visited := insertId st.visited c
                    visitLog := st.visitLog ++ [c] } c with
      | error e => rw [hp] at h; cases h
      | ok p =>
        rw [hp] at h
        obtain ⟨st1, push⟩ := p
        dsimp only at h
        obtain ⟨hwf1, hpre1, hlen1, houts1, hfresh1, hsub1, hskip1⟩ :=
          processNode_step apply _ c st1 push hp hwf
        have hc : c < st.graph.nodes.length := hq c (List.mem_cons_self _ _)
        have hsub1' : ∀ a ∈ st1.subgraph, a ∈ outputsSet st1.graph := by
          intro a ha
          rw [houts1]
          have hn : nodeAt st.graph c ∈ st.graph.nodes := getD_mem _ _ _ hc
          rcases hsub1 a ha with hh | hh | ⟨hh, hopd⟩
          · exact hsub a hh
          · exact mem_outputsSet.mpr ⟨_, hn, hh ▸ getD_mem _ _ _ (hwf.prim_out _ hn)⟩
          · exact mem_outputsSet.mpr ⟨_, hn, hh ▸ getD_mem _ _ _ (hwf.sec_out _ hn hopd)⟩
        have hskip1' : ∀ k ∈ st1.skipNodes, k < st1.graph.nodes.length := by
          intro k hk
          rw [hlen1]
          rcases hskip1 k hk with hh | rfl
          · exact hskip k hh
          · exact hc
        have hqcs : ∀ k ∈ cs, k < st1.graph.nodes.length := fun k hk =>
          hlen1 ▸ hq k (List.mem_cons_of_mem _ hk)
        have hqpush : ∀ k ∈ pushAllOutputNode st1.graph cs c st1.visited,
            k < st1.graph.nodes.length := by
          intro k hk
          unfold pushAllOutputNode at hk
          rcases List.mem_append.mp hk with hh | hh
          · exact hqcs k hh
          · have hm := (List.mem_filter.mp hh).1
            unfold consumersOf at hm
            exact List.mem_range.mp (List.mem_filter.mp hm).1
        have hq' : ∀ k ∈ (if push then pushAllOutputNode st1.graph cs c st1.visited else cs),
            k < st1.graph.nodes.length := by
          cases push
          · exact hqcs
          · exact hqpush
        obtain ⟨hwf', hpre', hlen', houts', hfresh', hsub', hskip'⟩ :=
          ih _ st1 st' h hwf1 hq' hsub1' hskip1'
        exact ⟨hwf', hpre1.trans hpre', hlen'.trans hlen1, houts'.trans houts1,
               hfresh'.trans hfresh1, hsub', hskip'⟩

theorem iterateSubgraph_inv (apply : Bool) (fuel : Nat) (g : Graph) (startIdx : Nat)
    (sub0 : List Nat) (st' : CState)
    (h : iterateSubgraphFromNode apply fuel g startIdx sub0 = .ok st')
    (hwf : WF g) (hsub0 : ∀ a ∈ sub0, a ∈ outputsSet g) :
    WF st'.graph ∧ Preserves g st'.graph ∧
    st'.graph.nodes.length = g.nodes.length ∧
    outputsSet st'.graph = outputsSet g ∧
    st'.graph.fresh = g.fresh ∧
    (∀ a ∈ st'.subgraph, a ∈ outputsSet st'.graph) ∧
    (∀ k ∈ st'.skipNodes, k < st'.graph.nodes.length) := by
  unfold iterateSubgraphFromNode at h
  refine iterateLoop_inv apply fuel _ _ st' h hwf ?_ hsub0 ?_
  · intro k hk
    unfold pushAllOutputNode at hk
    rcases List.mem_append.mp hk with hh | hh
    · exact absurd hh (List.not_mem_nil _)
    · have hm := (List.mem_filter.mp hh).1
      unfold consumersOf at hm
      exact List.mem_range.mp (List.mem_filter.mp hm).1
  · intro k hk
    exact absurd hk (List.not_mem_nil _)

theorem insertIntermediate_step (g : Graph) (j i : Nat) (op : Op) (extra : List Nat)
    (k : Nat) (hwf : WF g) (hj : j < g.nodes.length) (hk : 1 ≤ k)
    (hop : op ≠ .aten) (hopd : op ≠ .dropout) (hopp : op ≠ .pythonOp)
    (hold : inp (nodeAt g j) i < g.fresh) (hextra : ∀ a ∈ extra, a < g.fresh) :
    WF (insertIntermediateOnInput g j i op extra k).1 ∧
    Preserves g (insertIntermediateOnInput g j i op extra k).1 ∧
    (insertIntermediateOnInput g j i op extra k).1.nodes.length = g.nodes.length + 1 ∧
    (nodeAt (insertIntermediateOnInput g j i op extra k).1 g.nodes.length).op = op ∧
    (insertIntermediateOnInput g j i op extra k).1.fresh = g.fresh + k := by
  rw [insertIntermediateOnInput_eq g j i op extra k hj hk]
  have hn'out : ({ nodeAt g j with
      inputs := (nodeAt g j).inputs.set i g.fresh } : PNode).outputs =
      (g.nodes.getD j default).outputs := rfl
  have houts : outputsSet { g with
      nodes := (g.nodes.set j
        ({ nodeAt g j with inputs := (nodeAt g j).inputs.set i g.fresh })) ++
        [{ op := op, inputs := inp (nodeAt g j) i :: extra,
           outputs := (List.range k).map (fun t => g.fresh + t) }]
      fresh := g.fresh + k } =
      outputsSet g ++ (List.range k).map (fun t => g.fresh + t) := by
    unfold outputsSet
    dsimp only
    rw [List.flatMap_append, flatMap_outputs_set _ _ _ hn'out]
    simp
  have heout : ∀ a ∈ (List.range k).map (fun t => g.fresh + t),
      g.fresh ≤ a ∧ a < g.fresh + k := by
    intro a ha
    simp only [List.mem_map, List.mem_range] at ha
    obtain ⟨t, ht, rfl⟩ := ha
    omega
  have hsetlen : (g.nodes.set j
      ({ nodeAt g j with inputs := (nodeAt g j).inputs.set i g.fresh })).length =
      g.nodes.length := List.length_set _ _ _
  have hAtj : nodeAt { g with
      nodes := (g.nodes.set j
        ({ nodeAt g j with inputs := (nodeAt g j).inputs.set i g.fresh })) ++
        [{ op := op, inputs := inp (nodeAt g j) i :: extra,
           outputs := (List.range k).map (fun t => g.fresh + t) }]
      fresh := g.fresh + k } j =
      { nodeAt g j with inputs := (nodeAt g j).inputs.set i g.fresh } := by
    unfold nodeAt
    dsimp only
    exact getD_set_append _ _ _ _ _ hj
  have hAtne : ∀ t, t < g.nodes.length → t ≠ j → nodeAt { g with
      nodes := (g.nodes.set j
        ({ nodeAt g j with inputs := (nodeAt g j).inputs.set i g.fresh })) ++
        [{ op := op, inputs := inp (nodeAt g j) i :: extra,
           outputs := (List.range k).map (fun t => g.fresh + t) }]
      fresh := g.fresh + k } t = nodeAt g t := by
    intro t ht hne
    unfold nodeAt
    dsimp only
    refine Eq.trans (getD_append_left default ?_) (getD_set_ne _ _ (Ne.symm hne))
    rw [List.length_set]
    exact ht
  have hAtlast : nodeAt { g with
      nodes := (g.nodes.set j
        ({ nodeAt g j with inputs := (nodeAt g j).inputs.set i g.fresh })) ++
        [{ op := op, inputs := inp (nodeAt g j) i :: extra,
           outputs := (List.range k).map (fun t => g.fresh + t) }]
      fresh := g.fresh + k } g.nodes.length =
      { op := op, inputs := inp (nodeAt g j) i :: extra,
        outputs := (List.range k).map (fun t => g.fresh + t) } := by
    have h0 := getD_append_last
      (g.nodes.set j ({ nodeAt g j with inputs := (nodeAt g j).inputs.set i g.fresh }))
      ({ op := op, inputs := inp (nodeAt g j) i :: extra,
         outputs := (List.range k).map (fun t => g.fresh + t) } : PNode) default
    rw [hsetlen] at h0
    exact h0
  refine ⟨⟨?_, ?_, ?_, ?_, ?_, ?_, ?_, ?_⟩, ⟨?_, ?_, ?_, ?_, ?_, ?_, ?_, ?_, ?_, ?_, ?_, ?_, ?_, ?_, ?_⟩, by simp [hsetlen], by rw [hAtlast], rfl⟩
  · intro a ha
    exact Nat.lt_of_lt_of_le (hwf.gi_lt a ha) (Nat.le_add_right _ _)
  · intro a ha
    rw [houts] at ha
    rcases List.mem_append.mp ha with h | h
    · exact Nat.lt_of_lt_of_le (hwf.out_lt a h) (Nat.le_add_right _ _)
    · exact (heout a h).2
  · intro m hm a ha
    rcases List.mem_append.mp hm with h | h
    · rcases List.mem_or_eq_of_mem_set h with h2 | rfl
      · exact Nat.lt_of_lt_of_le (hwf.in_lt m h2 a ha) (Nat.le_add_right _ _)
      · rcases List.mem_or_eq_of_mem_set ha with h3 | rfl
        · exact Nat.lt_of_lt_of_le
            (hwf.in_lt (nodeAt g j) (getD_mem g.nodes j default hj) a h3)
            (Nat.le_add_right _ _)
        · exact Nat.lt_add_of_pos_right hk
    · rcases List.mem_singleton.mp h with rfl
      rcases List.mem_cons.mp ha with rfl | h3
      · exact Nat.lt_of_lt_of_le hold (Nat.le_add_right _ _)
      · exact Nat.lt_of_lt_of_le (hextra a h3) (Nat.le_add_right _ _)
  · intro p hp
    exact Nat.lt_of_lt_of_le (hwf.init_lt p hp) (Nat.le_add_right _ _)
  · intro a ha hmem
    rw [houts] at hmem
    rcases List.mem_append.mp hmem with h | h
    · exact hwf.gi_not_out a ha h
    · exact absurd (heout a h).1 (Nat.not_le.mpr (hwf.gi_lt a ha))
  · intro p hp hmem
    rw [houts] at hmem
    rcases List.mem_append.mp hmem with h | h
    · exact hwf.init_not_out p hp h
    · exact absurd (heout p.1 h).1 (Nat.not_le.mpr (hwf.init_lt p hp))
  · intro m hm
    rcases List.mem_append.mp hm with h | h
    · rcases List.mem_or_eq_of_mem_set h with h2 | rfl
      · exact hwf.prim_out m h2
      · exact hwf.prim_out (nodeAt g j) (getD_mem g.nodes j default hj)
    · rcases List.mem_singleton.mp h with rfl
      simp [hk]
  · intro m hm hd
    rcases List.mem_append.mp hm with h | h
    · rcases List.mem_or_eq_of_mem_set h with h2 | rfl
      · exact hwf.sec_out m h2 hd
      · exact hwf.sec_out (nodeAt g j) (getD_mem g.nodes j default hj) hd
    · rcases List.mem_singleton.mp h with rfl
      rcases hd with hd | hd
      · exact absurd hd hopd
      · exact absurd hd hopp
  · dsimp only
    rw [List.length_append, hsetlen]
    exact Nat.le_add_right _ _
  · exact Nat.le_add_right _ _
  · intro t ht
    by_cases hne : t = j
    · subst hne
      rw [hAtj]
    · rw [hAtne t ht hne]
  · intro t ht
    by_cases hne : t = j
    · subst hne
      rw [hAtj]
    · rw [hAtne t ht hne]
  · intro t ht
    by_cases hne : t = j
    · subst hne
      rw [hAtj]
    · rw [hAtne t ht hne]
  · intro t ht
    by_cases hne : t = j
    · subst hne
      rw [hAtj]
      exact List.length_set _ _ _
    · rw [hAtne t ht hne]
  · intro t ht
    by_cases hne : t = j
    · subst hne
      rw [hAtj]
    · rw [hAtne t ht hne]
  · intro t i' ht
    by_cases hne : t = j
    · subst hne
      rw [hAtj]
      dsimp only
      by_cases hii : i' = i
      · subst hii
        by_cases hilen : i' < (nodeAt g t).inputs.length
        · rw [getD_set_self _ _ hilen]
          refine Or.inr ⟨Nat.le_refl _, ?_⟩
          rw [houts]
          refine List.mem_append.mpr (Or.inr ?_)
          simp only [List.mem_map, List.mem_range]
          exact ⟨0, hk, rfl⟩
        · rw [List.set_eq_of_length_le (Nat.not_lt.mp hilen)]
          exact Or.inl rfl
      · rw [getD_set_ne _ _ (fun h => hii h.symm)]
        exact Or.inl rfl
    · rw [hAtne t ht hne]
      exact Or.inl rfl
  · intro t hle hlt
    dsimp only at hlt
    rw [List.length_append, hsetlen] at hlt
    have ht : t = g.nodes.length := by simp at hlt; omega
    subst ht
    rw [hAtlast]
    exact hop
  · rfl
  · intro a ha; rfl
  · intro a hfr hout
    exact initLookup_keys_lt_none _ a
      (fun p hp => Nat.lt_of_lt_of_le (hwf.init_lt p hp) hfr)
  · intro a ha
    rw [houts]
    exact List.mem_append.mpr (Or.inl ha)
  · intro a ha
    rw [houts] at ha
    rcases List.mem_append.mp ha with h | h
    · exact Or.inl h
    · exact Or.inr (heout a h).1
  · intro a ha; rfl

theorem foldlM_graph_inv {α : Type} (f : Graph → α → Except Crash Graph)
    (l : List α) (P : Graph → Prop)
    (hstep : ∀ gc x g', x ∈ l → P gc → f gc x = .ok g' → P g') :
    ∀ (gc g' : Graph), P gc → l.foldlM f gc = .ok g' → P g' := by
  induction l with
  | nil =>
    intro gc g' hP h
    cases h
    exact hP
  | cons x xs ih =>
    intro gc g' hP h
    rw [List.foldlM_cons] at h
    cases hf : f gc x with
    | error e =>
      rw [hf] at h
      exact Except.noConfusion h
    | ok g1 =>
      rw [hf] at h
      exact ih (fun gc2 y g2 hy => hstep gc2 y g2 (List.mem_cons_of_mem _ hy)) g1 g'
        (hstep gc x g1 (List.mem_cons_self _ _) hP hf) h

theorem foldl_graph_inv {α : Type} (f : Graph → α → Graph)
    (l : List α) (P : Graph → Prop)
    (hstep : ∀ gc x, x ∈ l → P gc → P (f gc x)) :
    ∀ (gc : Graph), P gc → P (l.foldl f gc) := by
  induction l with
  | nil => intro gc hP; exact hP
  | cons x xs ih =>
    intro gc hP
    rw [List.foldl_cons]
    exact ih (fun gc2 y hy => hstep gc2 y (List.mem_cons_of_mem _ hy)) _
      (hstep gc x (List.mem_cons_self _ _) hP)

theorem consumersWithInputIdx_mem (g : Graph) (j : Nat) (c i : Nat)
    (h : (c, i) ∈ consumersWithInputIdx g j) :
    c < g.nodes.length ∧ i < (nodeAt g c).inputs.length := by
  unfold consumersWithInputIdx at h
  rcases List.mem_filterMap.mp h with ⟨c', hc', heq⟩
  rcases Option.map_eq_some'.mp heq with ⟨i', hfind, heq2⟩
  cases heq2
  exact ⟨List.mem_range.mp hc',
         List.mem_range.mp (List.mem_of_find?_eq_some hfind)⟩

theorem nodeAt_out_of_range (g : Graph) (j : Nat) (hj : g.nodes.length ≤ j) :
    nodeAt g j = default := by
  unfold nodeAt
  rw [List.getD_eq_getElem?_getD, List.getElem?_eq_none hj]
  rfl

theorem insertFlatten_step (g : Graph) (j i sq : Nat) (hwf : WF g)
    (hj : j < g.nodes.length) (hold : inp (nodeAt g j) i < g.fresh)
    (hsq : sq < g.fresh) :
    WF (insertFlattenPatternForInput g j i sq) ∧
    Preserves g (insertFlattenPatternForInput g j i sq) ∧
    (insertFlattenPatternForInput g j i sq).nodes.length = g.nodes.length + 1 ∧
    (nodeAt (insertFlattenPatternForInput g j i sq) g.nodes.length).op =
      .flattenAndUnpad := by
  obtain ⟨h1, h2, h3, h4, h5⟩ :=
    insertIntermediate_step g j i .flattenAndUnpad [sq] 2 hwf hj (by omega)
      (by decide) (by decide) (by decide) hold
      (fun a ha => by rcases List.mem_singleton.mp ha with rfl; exact hsq)
  exact ⟨h1, h2, h3, h4⟩

theorem insertNodesForOutput_step (g : Graph) (j i sq ftd : Nat) (hwf : WF g)
    (hj : j < g.nodes.length) (hold : inp (nodeAt g j) i < g.fresh)
    (hsq : sq < g.fresh) (hftd : ftd < g.fresh) :
    WF (insertNodesForOutput g j i sq ftd) ∧
    Preserves g (insertNodesForOutput g j i sq ftd) := by
  obtain ⟨h1, h2, -, -, -⟩ :=
    insertIntermediate_step g j i .padAndUnflatten [sq, ftd] 1 hwf hj (by omega)
      (by decide) (by decide) (by decide) hold
      (fun a ha => by
        rcases List.mem_cons.mp ha with rfl | ha2
        · exact hsq
        · rcases List.mem_singleton.mp ha2 with rfl
          exact hftd)
  exact ⟨h1, h2⟩

theorem getDimsValue_step (g : Graph) (input indicesArg : Nat) (hwf : WF g)
    (hin : input < g.fresh) (hidx : indicesArg < g.fresh) :
    WF (getDimsValue g input indicesArg).1 ∧
    Preserves g (getDimsValue g input indicesArg).1 ∧
    (getDimsValue g input indicesArg).2 < (getDimsValue g input indicesArg).1.fresh := by
  obtain ⟨hw1, hp1⟩ := addNode_step g .shapeOf [input] 1 hwf (by decide) (by decide)
    (by decide) (by omega)
    (fun a ha => by rcases List.mem_singleton.mp ha with rfl; exact hin)
  obtain ⟨hw2, hp2⟩ := addNode_step (addNodeWithFreshOutputs g .shapeOf [input] 1).1
    .gatherElements [g.fresh, indicesArg] 1 hw1 (by decide) (by decide) (by decide)
    (by omega)
    (fun a ha => by
      rcases List.mem_cons.mp ha with rfl | ha2
      · exact Nat.lt_succ_self _
      · rcases List.mem_singleton.mp ha2 with rfl
        exact Nat.lt_succ_of_lt hidx)
  exact ⟨hw2, hp1.trans hp2, Nat.lt_succ_self _⟩

theorem insertExpand_step (g : Graph) (j i ftd : Nat) (hwf : WF g)
    (hj : j < g.nodes.length) (hold : inp (nodeAt g j) i < g.fresh)
    (hftd : ftd < g.fresh) (g' : Graph)
    (h : insertExpandForNodeInput g j i ftd = .ok g') :
    WF g' ∧ Preserves g g' := by
  unfold insertExpandForNodeInput at h
  cases hs : shapeOfArg g (inp (nodeAt g j) (1 - i)) with
  | none => rw [hs] at h; exact Except.noConfusion h
  | some s =>
    rw [hs] at h
    dsimp only at h
    by_cases h2 : s.length < 2
    · rw [if_pos h2] at h
      exact Except.noConfusion h
    · rw [if_neg h2] at h
      by_cases h3 : s.length = 2
      · rw [if_pos h3] at h
        injection h with h4
        subst h4
        obtain ⟨hw, hp, -, -, -⟩ := insertIntermediate_step g j i .expand [ftd] 1 hwf hj
          (by omega) (by decide) (by decide) (by decide) hold
          (fun a ha => by rcases List.mem_singleton.mp ha with rfl; exact hftd)
        exact ⟨hw, hp⟩
      · rw [if_neg h3] at h
        injection h with h4
        subst h4
        obtain ⟨hw1, hp1⟩ :=
          addInitArg_step g { dimsSize := 1, intTyped := true, value := 1 } hwf
        obtain ⟨hw2, hp2⟩ := addNode_step
          (addInitArg g { dimsSize := 1, intTyped := true, value := 1 }).1
          .concat [ftd, g.fresh] 1 hw1 (by decide) (by decide) (by decide) (by omega)
          (fun a ha => by
            rcases List.mem_cons.mp ha with rfl | ha2
            · exact Nat.lt_succ_of_lt hftd
            · rcases List.mem_singleton.mp ha2 with rfl
              exact Nat.lt_succ_self _)
        have hp12 := hp1.trans hp2
        have hj2 : j < (addNodeWithFreshOutputs
            (addInitArg g { dimsSize := 1, intTyped := true, value := 1 }).1
            .concat [ftd, g.fresh] 1).1.nodes.length :=
          Nat.lt_of_lt_of_le hj hp12.len_le
        have hold2 : inp (nodeAt (addNodeWithFreshOutputs
            (addInitArg g { dimsSize := 1, intTyped := true, value := 1 }).1
            .concat [ftd, g.fresh] 1).1 j) i < (addNodeWithFreshOutputs
            (addInitArg g { dimsSize := 1, intTyped := true, value := 1 }).1
            .concat [ftd, g.fresh] 1).1.fresh := by
          rcases hp12.old_inp j i hj with he | ⟨hf, ho⟩
          · unfold inp
            rw [he]
            exact Nat.lt_of_lt_of_le hold hp12.fresh_le
          · exact hw2.out_lt _ ho
        obtain ⟨hw3, hp3, -, -, -⟩ := insertIntermediate_step
          (addNodeWithFreshOutputs
            (addInitArg g { dimsSize := 1, intTyped := true, value := 1 }).1
            .concat [ftd, g.fresh] 1).1 j i .expand [g.fresh + 1] 1 hw2 hj2
          (by omega) (by decide) (by decide) (by decide) hold2
          (fun a ha => by
            rcases List.mem_singleton.mp ha with rfl
            exact Nat.lt_succ_self _)
        exact ⟨hw3, hp12.trans hp3⟩

theorem handleCandidateInput_step (g : Graph) (subgraph : List Nat) (sq ftd j i : Nat)
    (hwf : WF g) (hsq : sq < g.fresh) (hftd : ftd < g.fresh) (g' : Graph)
    (h : handleCandidateInput g subgraph sq ftd j i = .ok g') :
    WF g' ∧ Preserves g g' := by
  unfold handleCandidateInput at h
  dsimp only at h
  by_cases h1 : inp (nodeAt g j) i ∈ subgraph
  · rw [if_pos h1] at h
    injection h with h2
    subst h2
    exact ⟨hwf, preserves_self hwf⟩
  · rw [if_neg h1] at h
    by_cases h2 : (nodeAt g j).inputs.length ≠ 2
    · rw [if_pos h2] at h
      exact Except.noConfusion h
    · rw [if_neg h2] at h
      have hlen2 : (nodeAt g j).inputs.length = 2 := not_not.mp h2
      have hj : j < g.nodes.length := by
        by_contra hjn
        rw [nodeAt_out_of_range g j (Nat.not_lt.mp hjn)] at hlen2
        exact absurd hlen2 (by decide)
      have hmemn : nodeAt g j ∈ g.nodes := getD_mem g.nodes j default hj
      have hfr0 : 0 < g.fresh := by
        have hm0 : (nodeAt g j).inputs.getD 0 0 ∈ (nodeAt g j).inputs :=
          getD_mem _ _ _ (by rw [hlen2]; omega)
        have := hwf.in_lt (nodeAt g j) hmemn _ hm0
        omega
      have hold : inp (nodeAt g j) i < g.fresh := by
        by_cases hi : i < (nodeAt g j).inputs.length
        · exact hwf.in_lt (nodeAt g j) hmemn _ (getD_mem _ _ _ hi)
        · unfold inp
          rw [List.getD_eq_default _ _ (Nat.not_lt.mp hi)]
          exact hfr0
      cases hs1 : shapeOfArg g (inp (nodeAt g j) i) with
      | none =>
        rw [hs1] at h
        exact Except.noConfusion h
      | some sNot =>
        rw [hs1] at h
        cases hs2 : shapeOfArg g (inp (nodeAt g j) (1 - i)) with
        | none =>
          rw [hs2] at h
          exact Except.noConfusion h
        | some sIn =>
          rw [hs2] at h
          dsimp only at h
          cases had : adapterDecision sIn sNot with
          | noAdapter =>
            rw [had] at h
            injection h with h3
            subst h3
            exact ⟨hwf, preserves_self hwf⟩
          | flattenOnly =>
            rw [had] at h
            injection h with h3
            subst h3
            obtain ⟨hw, hp, -, -⟩ := insertFlatten_step g j i sq hwf hj hold hsq
            exact ⟨hw, hp⟩
          | expandThenFlatten =>
            rw [had] at h
            cases hex : insertExpandForNodeInput g j i ftd with
            | error e =>
              rw [hex] at h
              exact Except.noConfusion h
            | ok g1 =>
              rw [hex] at h
              injection h with h3
              obtain ⟨hw1, hp1⟩ := insertExpand_step g j i ftd hwf hj hold hftd g1 hex
              have hj1 : j < g1.nodes.length := Nat.lt_of_lt_of_le hj hp1.len_le
              have hold1 : inp (nodeAt g1 j) i < g1.fresh := by
                rcases hp1.old_inp j i hj with he | ⟨hf, ho⟩
                · unfold inp
                  rw [he]
                  exact Nat.lt_of_lt_of_le hold hp1.fresh_le
                · exact hw1.out_lt _ ho
              obtain ⟨hw2, hp2, -, -⟩ := insertFlatten_step g1 j i sq hw1 hj1 hold1
                (Nat.lt_of_lt_of_le hsq hp1.fresh_le)
              subst h3
              exact ⟨hw2, hp1.trans hp2⟩

theorem updateShapeForEdge_step (tok : String) (g : Graph) (a : Nat) (g' : Graph)
    (hwf : WF g) (hgi : a ∉ g.graphInputs)
    (h : updateShapeForEdge tok g a = .ok g') : WF g' ∧ Preserves g g' := by
  unfold updateShapeForEdge at h
  cases hs : shapeOfArg g a with
  | none =>
    rw [hs] at h
    exact Except.noConfusion h
  | some s =>
    rw [hs] at h
    dsimp only at h
    have main : ∀ (l : List Dim) (fl : List Dim) (gc : Graph), WF gc → Preserves g gc →
        ∀ p' : List Dim × Graph,
        l.foldlM
          (fun (p : List Dim × Graph) (d : Dim) =>
            if d.hasValue then
              let fl := p.1 ++ [Dim.value d.valueOf]
              (Except.ok (fl, setShape p.2 a fl) : Except Crash (List Dim × Graph))
            else .error .enforceFail) (fl, gc) = .ok p' →
        WF p'.2 ∧ Preserves g p'.2 := by
      intro l
      induction l with
      | nil =>
        intro fl gc hw hp p' hfold
        cases hfold
        exact ⟨hw, hp⟩
      | cons d ds ih =>
        intro fl gc hw hp p' hfold
        rw [List.foldlM_cons] at hfold
        by_cases hd : d.hasValue
        · rw [if_pos hd] at hfold
          have hgi2 : a ∉ gc.graphInputs := by
            rw [hp.gin_eq]
            exact hgi
          obtain ⟨hw2, hp2⟩ := setShape_step gc a (fl ++ [Dim.value d.valueOf]) hgi2 hw
          exact ih _ _ hw2 (hp.trans hp2) p' hfold
        · rw [if_neg hd] at hfold
          exact Except.noConfusion hfold
    cases hres : (s.drop 2).foldlM
        (fun (p : List Dim × Graph) (d : Dim) =>
          if d.hasValue then
            let fl := p.1 ++ [Dim.value d.valueOf]
            (Except.ok (fl, setShape p.2 a fl) : Except Crash (List Dim × Graph))
          else .error .enforceFail) ([Dim.sym tok], g) with
    | error e =>
      rw [hres] at h
      exact Except.noConfusion h
    | ok p =>
      rw [hres] at h
      injection h with h2
      subst h2
      exact main (s.drop 2) [Dim.sym tok] g hwf (preserves_self hwf) p hres

theorem buildValidIndexChain_step (g : Graph) (aidx ids : Nat) (s : List Dim)
    (hwf : WF g) (haidx : aidx < g.nodes.length) (hids : ids < g.fresh)
    (h3 : 3 ≤ (nodeAt g aidx).inputs.length) :
    WF (buildValidIndexChain g aidx ids s).1 ∧
    Preserves g (buildValidIndexChain g aidx ids s).1 ∧
    (buildValidIndexChain g aidx ids s).2 < (buildValidIndexChain g aidx ids s).1.fresh := by
  obtain ⟨hw1, hp1⟩ :=
    addInitArg_step g { dimsSize := 1, intTyped := true, value := -1 } hwf
  obtain ⟨hw2, hp2⟩ := addNode_step
    (addInitArg g { dimsSize := 1, intTyped := true, value := -1 }).1
    .reshape [ids, g.fresh] 1 hw1 (by decide) (by decide) (by decide) (by omega)
    (fun a ha => by
      rcases List.mem_cons.mp ha with rfl | ha2
      · exact Nat.lt_succ_of_lt hids
      · rcases List.mem_singleton.mp ha2 with rfl
        exact Nat.lt_succ_self _)
  have hp12 := hp1.trans hp2
  have hgi3 : g.fresh + 1 ∉ ((addNodeWithFreshOutputs
      (addInitArg g { dimsSize := 1, intTyped := true, value := -1 }).1
      .reshape [ids, g.fresh] 1).1).graphInputs := fun hmem =>
    absurd (hwf.gi_lt _ (hp12.gin_eq ▸ hmem)) (by omega)
  obtain ⟨hw3, hp3⟩ := setShape_step (addNodeWithFreshOutputs
      (addInitArg g { dimsSize := 1, intTyped := true, value := -1 }).1
      .reshape [ids, g.fresh] 1).1 (g.fresh + 1) (flattenedShapeOf s) hgi3 hw2
  have hp13 := hp12.trans hp3
  have hAt : nodeAt (setShape (addNodeWithFreshOutputs
      (addInitArg g { dimsSize := 1, intTyped := true, value := -1 }).1
      .reshape [ids, g.fresh] 1).1 (g.fresh + 1) (flattenedShapeOf s)) aidx =
      nodeAt g aidx := getD_append_left default haidx
  have hpad : inp (nodeAt (setShape (addNodeWithFreshOutputs
      (addInitArg g { dimsSize := 1, intTyped := true, value := -1 }).1
      .reshape [ids, g.fresh] 1).1 (g.fresh + 1) (flattenedShapeOf s)) aidx) 2 <
      (setShape (addNodeWithFreshOutputs
      (addInitArg g { dimsSize := 1, intTyped := true, value := -1 }).1
      .reshape [ids, g.fresh] 1).1 (g.fresh + 1) (flattenedShapeOf s)).fresh := by
    rw [hAt]
    have hv := hwf.in_lt (nodeAt g aidx) (getD_mem g.nodes aidx default haidx)
      ((nodeAt g aidx).inputs.getD 2 0)
      (getD_mem (nodeAt g aidx).inputs 2 0 (show 2 < (nodeAt g aidx).inputs.length by omega))
    exact Nat.lt_of_lt_of_le hv (show g.fresh ≤ g.fresh + 2 by omega)
  obtain ⟨hw4, hp4⟩ := addNode_step (setShape (addNodeWithFreshOutputs
      (addInitArg g { dimsSize := 1, intTyped := true, value := -1 }).1
      .reshape [ids, g.fresh] 1).1 (g.fresh + 1) (flattenedShapeOf s))
    .sub [g.fresh + 1, inp (nodeAt (setShape (addNodeWithFreshOutputs
      (addInitArg g { dimsSize := 1, intTyped := true, value := -1 }).1
      .reshape [ids, g.fresh] 1).1 (g.fresh + 1) (flattenedShapeOf s)) aidx) 2] 1
    hw3 (by decide) (by decide) (by decide) (by omega)
    (fun a ha => by
      rcases List.mem_cons.mp ha with rfl | ha2
      · exact Nat.lt_succ_self _
      · rcases List.mem_singleton.mp ha2 with rfl
        exact hpad)
  have hp14 := hp13.trans hp4
  obtain ⟨hw5, hp5⟩ := addNode_step (addNodeWithFreshOutputs (setShape
      (addNodeWithFreshOutputs
        (addInitArg g { dimsSize := 1, intTyped := true, value := -1 }).1
        .reshape [ids, g.fresh] 1).1 (g.fresh + 1) (flattenedShapeOf s))
      .sub [g.fresh + 1, inp (nodeAt (setShape (addNodeWithFreshOutputs
        (addInitArg g { dimsSize := 1, intTyped := true, value := -1 }).1
        .reshape [ids, g.fresh] 1).1 (g.fresh + 1) (flattenedShapeOf s)) aidx) 2] 1).1
    .nonZero [g.fresh + 2] 1 hw4 (by decide) (by decide) (by decide) (by omega)
    (fun a ha => by
      rcases List.mem_singleton.mp ha with rfl
      exact Nat.lt_succ_self _)
  have hp15 := hp14.trans hp5
  obtain ⟨hw6, hp6⟩ := addNode_step (addNodeWithFreshOutputs
      (addNodeWithFreshOutputs (setShape
        (addNodeWithFreshOutputs
          (addInitArg g { dimsSize := 1, intTyped := true, value := -1 }).1
          .reshape [ids, g.fresh] 1).1 (g.fresh + 1) (flattenedShapeOf s))
        .sub [g.fresh + 1, inp (nodeAt (setShape (addNodeWithFreshOutputs
          (addInitArg g { dimsSize := 1, intTyped := true, value := -1 }).1
          .reshape [ids, g.fresh] 1).1 (g.fresh + 1) (flattenedShapeOf s)) aidx) 2] 1).1
      .nonZero [g.fresh + 2] 1).1
    .squeeze [g.fresh + 3] 1 hw5 (by decide) (by decide) (by decide) (by omega)
    (fun a ha => by
      rcases List.mem_singleton.mp ha with rfl
      exact Nat.lt_succ_self _)
  have hp16 := hp15.trans hp6
  have hgi7 : g.fresh + 4 ∉ ((addNodeWithFreshOutputs (addNodeWithFreshOutputs
      (addNodeWithFreshOutputs (setShape
        (addNodeWithFreshOutputs
          (addInitArg g { dimsSize := 1, intTyped := true, value := -1 }).1
          .reshape [ids, g.fresh] 1).1 (g.fresh + 1) (flattenedShapeOf s))
        .sub [g.fresh + 1, inp (nodeAt (setShape (addNodeWithFreshOutputs
          (addInitArg g { dimsSize := 1, intTyped := true, value := -1 }).1
          .reshape [ids, g.fresh] 1).1 (g.fresh + 1) (flattenedShapeOf s)) aidx) 2] 1).1
      .nonZero [g.fresh + 2] 1).1
      .squeeze [g.fresh + 3] 1).1).graphInputs := fun hmem =>
    absurd (hwf.gi_lt _ (hp16.gin_eq ▸ hmem)) (by omega)
  obtain ⟨hw7, hp7⟩ := setShape_step (addNodeWithFreshOutputs (addNodeWithFreshOutputs
      (addNodeWithFreshOutputs (setShape
        (addNodeWithFreshOutputs
          (addInitArg g { dimsSize := 1, intTyped := true, value := -1 }).1
          .reshape [ids, g.fresh] 1).1 (g.fresh + 1) (flattenedShapeOf s))
        .sub [g.fresh + 1, inp (nodeAt (setShape (addNodeWithFreshOutputs
          (addInitArg g { dimsSize := 1, intTyped := true, value := -1 }).1
          .reshape [ids, g.fresh] 1).1 (g.fresh + 1) (flattenedShapeOf s)) aidx) 2] 1).1
      .nonZero [g.fresh + 2] 1).1
      .squeeze [g.fresh + 3] 1).1 (g.fresh + 4) [Dim.sym "valid_index_count"] hgi7 hw6
  exact ⟨hw7, hp16.trans hp7, Nat.lt_succ_self _⟩

theorem except_bind_ok {ε α β : Type} (x : Except ε α) (f : α → Except ε β) (b : β)
    (h : x >>= f = .ok b) : ∃ a, x = .ok a ∧ f a = .ok b := by
  cases x with
  | error e => exact Except.noConfusion h
  | ok a => exact ⟨a, rfl, h⟩

theorem fullRewrite_ok (g0 : Graph) (st : CState) (aidx ids sq : Nat)
    (gG : Graph) (m : Bool) (hwf : WF g0)
    (hsub : ∀ a ∈ st.subgraph, a ∈ outputsSet g0)
    (hskip : ∀ k ∈ st.skipNodes, k < g0.nodes.length)
    (haidx : aidx < g0.nodes.length)
    (haLen : 2 ≤ (nodeAt g0 aidx).inputs.length)
    (hids : ids < g0.fresh) (hsq : sq < g0.fresh)
    (h : fullRewrite g0 st aidx ids sq = .ok (gG, m)) :
    m = true ∧ WF gG ∧ Preserves g0 gG ∧
    g0.nodes.length < gG.nodes.length ∧
    (∃ k, k < gG.nodes.length ∧ (nodeAt gG k).op = .flattenAndUnpad) ∧
    g0.fresh ≤ inp (nodeAt gG aidx) 1 := by
  obtain ⟨hwA, hpA⟩ :=
    addInitArg_step g0 { dimsSize := 1, intTyped := true, value := 0 } hwf
  obtain ⟨hwB, hpB, -⟩ := getDimsValue_step
    (addInitArg g0 { dimsSize := 1, intTyped := true, value := 0 }).1 ids g0.fresh hwA
    (Nat.lt_succ_of_lt hids) (Nat.lt_succ_self _)
  have hpAB := hpA.trans hpB
  set GB := (getDimsValue
    (addInitArg g0 { dimsSize := 1, intTyped := true, value := 0 }).1 ids g0.fresh).1
    with hGB
  have haidxB : aidx < GB.nodes.length := Nat.lt_of_lt_of_le haidx hpAB.len_le
  have h1ltB : 1 < (nodeAt GB aidx).inputs.length := by
    rw [hpAB.old_inlen aidx haidx]
    omega
  have holdB : inp (nodeAt GB aidx) 1 < GB.fresh :=
    hwB.in_lt (nodeAt GB aidx) (getD_mem GB.nodes aidx default haidxB)
      ((nodeAt GB aidx).inputs.getD 1 0) (getD_mem (nodeAt GB aidx).inputs 1 0 h1ltB)
  obtain ⟨hwC, hpC, hlenC, hflatC⟩ := insertFlatten_step GB aidx 1 sq hwB haidxB holdB
    (Nat.lt_of_lt_of_le hsq hpAB.fresh_le)
  have hpAC := hpAB.trans hpC
  set GC := insertFlattenPatternForInput GB aidx 1 sq with hGC
  have hsqC : sq < GC.fresh := Nat.lt_of_lt_of_le hsq hpAC.fresh_le
  have hftdC : g0.fresh + 2 < GC.fresh := by
    show g0.fresh + 2 < g0.fresh + 5
    omega
  have hanchorC : (nodeAt GC aidx).inputs.getD 1 0 = GB.fresh := by
    rw [hGC]
    unfold insertFlattenPatternForInput
    rw [insertIntermediateOnInput_eq GB aidx 1 .flattenAndUnpad [sq] 2 haidxB (by omega)]
    unfold nodeAt
    dsimp only
    rw [getD_set_append _ _ _ _ _ haidxB]
    dsimp only
    have h1ltB' : 1 < (GB.nodes.getD aidx default).inputs.length := h1ltB
    rw [getD_set_self _ _ h1ltB']
  have houter1 : ∀ gD : Graph, st.candidateInputs.foldlM
      (fun g j =>
        (List.range (nodeAt g j).inputs.length).foldlM
          (fun g i => handleCandidateInput g st.subgraph sq (g0.fresh + 2) j i) g)
      GC = .ok gD →
      WF gD ∧ Preserves GC gD := by
    intro gD hD
    refine foldlM_graph_inv _ st.candidateInputs (fun gc => WF gc ∧ Preserves GC gc)
      ?_ GC gD ⟨hwC, preserves_self hwC⟩ hD
    intro gc j g2 hjmem hP hF
    refine foldlM_graph_inv _ (List.range (nodeAt gc j).inputs.length)
      (fun g2' => WF g2' ∧ Preserves GC g2') ?_ gc g2 hP hF
    intro gc2 x g2' hx hQ hhc
    obtain ⟨hw', hp'⟩ := handleCandidateInput_step gc2 st.subgraph sq (g0.fresh + 2) j x
      hQ.1 (Nat.lt_of_lt_of_le hsqC hQ.2.fresh_le)
      (Nat.lt_of_lt_of_le hftdC hQ.2.fresh_le) g2' hhc
    exact ⟨hw', hQ.2.trans hp'⟩
  have houter2 : ∀ gD : Graph, WF gD ∧ Preserves GC gD →
      WF (st.candidateOutputs.foldl
        (fun g j =>
          (List.range (nodeAt g j).inputs.length).foldl
            (fun g' i =>
              if inp (nodeAt g' j) i ∈ st.subgraph then
                insertNodesForOutput g' j i sq (g0.fresh + 2)
              else g') g)
        gD) ∧
      Preserves GC (st.candidateOutputs.foldl
        (fun g j =>
          (List.range (nodeAt g j).inputs.length).foldl
            (fun g' i =>
              if inp (nodeAt g' j) i ∈ st.subgraph then
                insertNodesForOutput g' j i sq (g0.fresh + 2)
              else g') g)
        gD) := by
    intro gD hPD
    refine foldl_graph_inv _ st.candidateOutputs (fun gc => WF gc ∧ Preserves GC gc)
      ?_ gD hPD
    intro gc j hjmem hP
    by_cases hjlen : j < gc.nodes.length
    · have hQfin := foldl_graph_inv
        (fun g' i =>
          if inp (nodeAt g' j) i ∈ st.subgraph then
            insertNodesForOutput g' j i sq (g0.fresh + 2)
          else g')
        (List.range (nodeAt gc j).inputs.length)
        (fun g2 => WF g2 ∧ Preserves GC g2 ∧ Preserves gc g2)
        (by
          intro g2 x hx hQ
          dsimp only
          by_cases hcond : inp (nodeAt g2 j) x ∈ st.subgraph
          · rw [if_pos hcond]
            have hj2 : j < g2.nodes.length := Nat.lt_of_lt_of_le hjlen hQ.2.2.len_le
            have hx2 : x < (nodeAt g2 j).inputs.length := by
              rw [hQ.2.2.old_inlen j hjlen]
              exact List.mem_range.mp hx
            have hold2 : inp (nodeAt g2 j) x < g2.fresh :=
              hQ.1.in_lt (nodeAt g2 j) (getD_mem g2.nodes j default hj2)
                ((nodeAt g2 j).inputs.getD x 0) (getD_mem (nodeAt g2 j).inputs x 0 hx2)
            obtain ⟨hwN, hpN⟩ := insertNodesForOutput_step g2 j x sq (g0.fresh + 2)
              hQ.1 hj2 hold2 (Nat.lt_of_lt_of_le hsqC hQ.2.1.fresh_le)
              (Nat.lt_of_lt_of_le hftdC hQ.2.1.fresh_le)
            exact ⟨hwN, hQ.2.1.trans hpN, hQ.2.2.trans hpN⟩
          · rw [if_neg hcond]
            exact hQ)
        gc ⟨hP.1, hP.2, preserves_self hP.1⟩
      exact ⟨hQfin.1, hQfin.2.1⟩
    · have hz : (nodeAt gc j).inputs.length = 0 := by
        rw [nodeAt_out_of_range gc j (Nat.not_lt.mp hjlen)]
        rfl
      rw [hz]
      simp only [List.range_zero, List.foldl_nil]
      exact hP
  have houter3 : ∀ gE gF : Graph, WF gE ∧ Preserves GC gE →
      st.subgraph.foldlM (fun g a => updateShapeForEdge tokenDimName g a) gE = .ok gF →
      WF gF ∧ Preserves GC gF := by
    intro gE gF hPE hF
    refine foldlM_graph_inv _ st.subgraph (fun gc => WF gc ∧ Preserves GC gc)
      ?_ gE gF hPE hF
    intro gc a g2 ha hP hup
    have hout : a ∈ outputsSet gc := (hpAC.trans hP.2).out_mono a (hsub a ha)
    have hgi : a ∉ gc.graphInputs := fun hgi2 => hP.1.gi_not_out a hgi2 hout
    obtain ⟨hw', hp'⟩ := updateShapeForEdge_step tokenDimName gc a g2 hP.1 hgi hup
    exact ⟨hw', hP.2.trans hp'⟩
  have houter4 : ∀ gF : Graph, WF gF ∧ Preserves GC gF →
      WF (st.skipNodes.foldl
        (fun g j =>
          (consumersWithInputIdx (insertNodesForOutput g j 0 sq (g0.fresh + 2)) j).foldl
            (fun g2 ci => insertFlattenPatternForInput g2 ci.1 ci.2 sq)
            (insertNodesForOutput g j 0 sq (g0.fresh + 2)))
        gF) ∧
      Preserves GC (st.skipNodes.foldl
        (fun g j =>
          (consumersWithInputIdx (insertNodesForOutput g j 0 sq (g0.fresh + 2)) j).foldl
            (fun g2 ci => insertFlattenPatternForInput g2 ci.1 ci.2 sq)
            (insertNodesForOutput g j 0 sq (g0.fresh + 2)))
        gF) := by
    intro gF hPF
    refine foldl_graph_inv _ st.skipNodes (fun gc => WF gc ∧ Preserves GC gc)
      ?_ gF hPF
    intro gc j hjmem hP
    have hjc : j < gc.nodes.length :=
      Nat.lt_of_lt_of_le (hskip j hjmem) (hpAC.trans hP.2).len_le
    have h0C : 0 < GC.fresh := by
      show 0 < g0.fresh + 5
      omega
    have hfr0 : 0 < gc.fresh := Nat.lt_of_lt_of_le h0C hP.2.fresh_le
    have hold0 : inp (nodeAt gc j) 0 < gc.fresh := by
      by_cases h0 : 0 < (nodeAt gc j).inputs.length
      · exact hP.1.in_lt (nodeAt gc j) (getD_mem gc.nodes j default hjc)
          ((nodeAt gc j).inputs.getD 0 0) (getD_mem (nodeAt gc j).inputs 0 0 h0)
      · unfold inp
        rw [List.getD_eq_default _ _ (by omega)]
        exact hfr0
    obtain ⟨hwN1, hpN1⟩ := insertNodesForOutput_step gc j 0 sq (g0.fresh + 2) hP.1 hjc
      hold0 (Nat.lt_of_lt_of_le hsqC hP.2.fresh_le) (Nat.lt_of_lt_of_le hftdC hP.2.fresh_le)
    have hcons := foldl_graph_inv
      (fun g2 ci => insertFlattenPatternForInput g2 ci.1 ci.2 sq)
      (consumersWithInputIdx (insertNodesForOutput gc j 0 sq (g0.fresh + 2)) j)
      (fun g2 => WF g2 ∧ Preserves GC g2 ∧
        Preserves (insertNodesForOutput gc j 0 sq (g0.fresh + 2)) g2)
      (by
        intro g2 ci hci hQ
        obtain ⟨c, i⟩ := ci
        obtain ⟨hc, hi⟩ := consumersWithInputIdx_mem _ j c i hci
        have hc2 : c < g2.nodes.length := Nat.lt_of_lt_of_le hc hQ.2.2.len_le
        have hi2 : i < (nodeAt g2 c).inputs.length := by
          rw [hQ.2.2.old_inlen c hc]
          exact hi
        have holdc : inp (nodeAt g2 c) i < g2.fresh :=
          hQ.1.in_lt (nodeAt g2 c) (getD_mem g2.nodes c default hc2)
            ((nodeAt g2 c).inputs.getD i 0) (getD_mem (nodeAt g2 c).inputs i 0 hi2)
        obtain ⟨hwFl, hpFl, -, -⟩ := insertFlatten_step g2 c i sq hQ.1 hc2 holdc
          (Nat.lt_of_lt_of_le hsqC hQ.2.1.fresh_le)
        exact ⟨hwFl, hQ.2.1.trans hpFl, hQ.2.2.trans hpFl⟩)
      (insertNodesForOutput gc j 0 sq (g0.fresh + 2))
      ⟨hwN1, hP.2.trans hpN1, preserves_self hwN1⟩
    exact ⟨hcons.1, hcons.2.1⟩
  unfold fullRewrite at h
  obtain ⟨gD, hD, h⟩ := except_bind_ok _ _ _ h
  obtain ⟨gF, hF, h⟩ := except_bind_ok _ _ _ h
  injection h with hpair
  injection hpair with hg hm
  subst hm
  subst hg
  obtain ⟨hwD, hpD⟩ := houter1 gD hD
  obtain ⟨hwE, hpE⟩ := houter2 gD ⟨hwD, hpD⟩
  obtain ⟨hwF2, hpF2⟩ := houter3 _ gF ⟨hwE, hpE⟩ hF
  obtain ⟨hwG, hpG⟩ := houter4 gF ⟨hwF2, hpF2⟩
  have hlen1 : g0.nodes.length ≤ GB.nodes.length := hpAB.len_le
  have hlen2 : GC.nodes.length ≤ (st.skipNodes.foldl
      (fun g j =>
        (consumersWithInputIdx (insertNodesForOutput g j 0 sq (g0.fresh + 2)) j).foldl
          (fun g2 ci => insertFlattenPatternForInput g2 ci.1 ci.2 sq)
          (insertNodesForOutput g j 0 sq (g0.fresh + 2)))
      gF).nodes.length := hpG.len_le
  refine ⟨rfl, hwG, hpAC.trans hpG, ?_, ?_, ?_⟩
  · show g0.nodes.length < (st.skipNodes.foldl
        (fun g j =>
          (consumersWithInputIdx (insertNodesForOutput g j 0 sq (g0.fresh + 2)) j).foldl
            (fun g2 ci => insertFlattenPatternForInput g2 ci.1 ci.2 sq)
            (insertNodesForOutput g j 0 sq (g0.fresh + 2)))
        gF).nodes.length
    omega
  · show ∃ k, k < (st.skipNodes.foldl
        (fun g j =>
          (consumersWithInputIdx (insertNodesForOutput g j 0 sq (g0.fresh + 2)) j).foldl
            (fun g2 ci => insertFlattenPatternForInput g2 ci.1 ci.2 sq)
            (insertNodesForOutput g j 0 sq (g0.fresh + 2)))
        gF).nodes.length ∧
      (nodeAt (st.skipNodes.foldl
        (fun g j =>
          (consumersWithInputIdx (insertNodesForOutput g j 0 sq (g0.fresh + 2)) j).foldl
            (fun g2 ci => insertFlattenPatternForInput g2 ci.1 ci.2 sq)
            (insertNodesForOutput g j 0 sq (g0.fresh + 2)))
        gF) k).op = .flattenAndUnpad
    refine ⟨GB.nodes.length, by omega, ?_⟩
    rw [hpG.old_op GB.nodes.length (by omega)]
    exact hflatC
  · show g0.fresh ≤ inp (nodeAt (st.skipNodes.foldl
        (fun g j =>
          (consumersWithInputIdx (insertNodesForOutput g j 0 sq (g0.fresh + 2)) j).foldl
            (fun g2 ci => insertFlattenPatternForInput g2 ci.1 ci.2 sq)
            (insertNodesForOutput g j 0 sq (g0.fresh + 2)))
        gF) aidx) 1
    unfold inp
    rcases hpG.old_inp aidx 1 (by omega) with he | ⟨hf, -⟩
    · rw [he, hanchorC]
      exact Nat.le_add_right g0.fresh 3
    · exact Nat.le_trans hpAC.fresh_le hf

theorem anchorQualified_eq_true_iff (g : Graph) (sparse : List Nat) (n : PNode) :
    anchorQualified g sparse n = true ↔
      isATenEmbedding n = true ∧ n.providerOk = true ∧ 3 ≤ n.inputs.length ∧
      inp n 1 ∈ g.graphInputs ∧
      (∃ s, shapeOfArg g (inp n 1) = some s ∧ 2 ≤ s.length) ∧
      inp n 1 ∈ sparse ∧
      (∃ info, initLookup g (inp n 2) = some info ∧
        info.dimsSize = 0 ∧ info.intTyped = true ∧ 0 ≤ info.value) := by
  unfold anchorQualified
  simp only [Bool.and_eq_true, decide_eq_true_eq]
  constructor
  · rintro ⟨⟨⟨⟨⟨⟨⟨h1, h2⟩, h3⟩, h4⟩, h5⟩, h6⟩, h7⟩, h8⟩
    refine ⟨h1, h2, h3, h5, ?_, h7, ?_⟩
    · cases hsh : shapeOfArg g (inp n 1) with
      | none => rw [hsh] at h6; exact Bool.noConfusion h6
      | some s =>
        rw [hsh] at h6
        exact ⟨s, rfl, by simpa using h6⟩
    · cases hin : initLookup g (inp n 2) with
      | none => rw [hin] at h8; exact Bool.noConfusion h8
      | some info =>
        rw [hin] at h8
        simp only [Bool.and_eq_true, decide_eq_true_eq] at h8
        exact ⟨info, rfl, h8.1.1, h8.1.2, h8.2⟩
  · rintro ⟨h1, h2, h3, h5, ⟨s, hsh, hslen⟩, h7, ⟨info, hin, hd, hi, hv⟩⟩
    refine ⟨⟨⟨⟨⟨⟨⟨h1, h2⟩, h3⟩, ?_⟩, h5⟩, ?_⟩, h7⟩, ?_⟩
    · rw [hin]
      rfl
    · rw [hsh]
      simpa using hslen
    · rw [hin]
      simp [hd, hi, hv]

theorem findAnchor_some (g : Graph) (sparse : List Nat) (aidx ids : Nat)
    (h : findAnchor g sparse = some (aidx, ids)) :
    aidx < g.nodes.length ∧ anchorQualified g sparse (nodeAt g aidx) = true ∧
    ids = inp (nodeAt g aidx) 1 := by
  unfold findAnchor at h
  rcases Option.map_eq_some'.mp h with ⟨a, hfind, heq⟩
  injection heq with h1 h2
  subst h1
  have hpa := List.find?_some hfind
  exact ⟨List.mem_range.mp (List.mem_of_find?_eq_some hfind), hpa, h2.symm⟩

theorem mem_foldl_insertId : ∀ (l acc : List Nat) (a : Nat),
    a ∈ l.foldl insertId acc → a ∈ acc ∨ a ∈ l := by
  intro l
  induction l with
  | nil => intro acc a h; exact Or.inl h
  | cons x xs ih =>
    intro acc a h
    rw [List.foldl_cons] at h
    rcases ih (insertId acc x) a h with h2 | h2
    · rcases mem_insertId.mp h2 with h3 | rfl
      · exact Or.inl h3
      · exact Or.inr (List.mem_cons_self _ _)
    · exact Or.inr (List.mem_cons_of_mem _ h2)

theorem applyImpl_true_run (sparse : List Nat) (fuel : Nat) (g g' : Graph)
    (hwf : WF g) (h : applyImpl true sparse fuel g = .ok (g', true)) :
    ∃ aidx ids, findAnchor g sparse = some (aidx, ids) ∧ aidx < g.nodes.length ∧
      WF g' ∧ Preserves g g' ∧ g.nodes.length < g'.nodes.length ∧
      (∃ k, k < g'.nodes.length ∧ (nodeAt g' k).op = .flattenAndUnpad) ∧
      g.fresh ≤ inp (nodeAt g' aidx) 1 := by
  unfold applyImpl at h
  by_cases hsp : sparse.isEmpty
  · rw [if_pos hsp] at h
    injection h with hpair
    injection hpair with hg hm
    exact Bool.noConfusion hm
  · rw [if_neg hsp] at h
    cases hfa : findAnchor g sparse with
    | none =>
      rw [hfa] at h
      injection h with hpair
      injection hpair with hg hm
      exact Bool.noConfusion hm
    | some p =>
      obtain ⟨aidx, ids⟩ := p
      rw [hfa] at h
      dsimp only at h
      cases hsh : shapeOfArg g ids with
      | none =>
        rw [hsh] at h
        injection h with hpair
        injection hpair with hg hm
        exact Bool.noConfusion hm
      | some idsShape =>
        rw [hsh] at h
        dsimp only at h
        by_cases htd : trailingDimsOk idsShape = true
        case neg =>
          rw [if_neg htd] at h
          injection h with hpair
          injection hpair with hg hm
          exact Bool.noConfusion hm
        case pos =>
          rw [if_pos htd] at h
          cases hit : iterateSubgraphFromNode true fuel g aidx
              ((nodeAt g aidx).outputs.foldl insertId []) with
          | error c =>
            rw [hit] at h
            exact Except.noConfusion h
          | ok st =>
            rw [hit] at h
            dsimp only at h
            rw [if_neg (fun hc => Bool.noConfusion hc.1)] at h
            have hb : buildValidIndexChain st.graph aidx ids idsShape =
                ((buildValidIndexChain st.graph aidx ids idsShape).1,
                 (buildValidIndexChain st.graph aidx ids idsShape).2) := rfl
            rw [hb] at h
            dsimp only at h
            rw [if_neg (fun hc => Bool.noConfusion hc)] at h
            -- h : fullRewrite g1 st aidx ids sq = .ok (g', true)
            obtain ⟨haidx, hq, hids⟩ := findAnchor_some g sparse aidx ids hfa
            obtain ⟨-, -, h3g, -, -, -, -⟩ :=
              (anchorQualified_eq_true_iff g sparse (nodeAt g aidx)).mp hq
            have hidsg : ids < g.fresh := by
              rw [hids]
              exact hwf.in_lt (nodeAt g aidx) (getD_mem g.nodes aidx default haidx)
                ((nodeAt g aidx).inputs.getD 1 0)
                (getD_mem (nodeAt g aidx).inputs 1 0 (by omega))
            obtain ⟨hwfS, hpreS, hlenS, houtS, hfreshS, hsubS, hskipS⟩ :=
              iterateSubgraph_inv true fuel g aidx
                ((nodeAt g aidx).outputs.foldl insertId []) st hit hwf
                (fun a ha => by
                  rcases mem_foldl_insertId _ _ _ ha with h2 | h2
                  · exact absurd h2 (List.not_mem_nil _)
                  · exact mem_outputsSet.mpr
                      ⟨nodeAt g aidx, getD_mem g.nodes aidx default haidx, h2⟩)
            have haidxS : aidx < st.graph.nodes.length := by
              rw [hlenS]
              exact haidx
            have h3S : 3 ≤ (nodeAt st.graph aidx).inputs.length := by
              rw [hpreS.old_inlen aidx haidx]
              exact h3g
            have hidsS : ids < st.graph.fresh := by
              rw [hfreshS]
              exact hidsg
            obtain ⟨hwf1, hpre1, hsqlt⟩ :=
              buildValidIndexChain_step st.graph aidx ids idsShape hwfS haidxS hidsS h3S
            obtain ⟨-, hwfG, hpreG, hlenG, hflatEx, hanchor⟩ :=
              fullRewrite_ok (buildValidIndexChain st.graph aidx ids idsShape).1 st
                aidx ids (buildValidIndexChain st.graph aidx ids idsShape).2 g' true hwf1
                (fun a ha => hpre1.out_mono a (hsubS a ha))
                (fun k hk => Nat.lt_of_lt_of_le (hskipS k hk) hpre1.len_le)
                (Nat.lt_of_lt_of_le haidxS hpre1.len_le)
                (by rw [hpre1.old_inlen aidx haidxS]; omega)
                (Nat.lt_of_lt_of_le hidsS hpre1.fresh_le) hsqlt h
            refine ⟨aidx, ids, rfl, haidx, hwfG, (hpreS.trans hpre1).trans hpreG, ?_, hflatEx, ?_⟩
            · have h1 : st.graph.nodes.length ≤
                  (buildValidIndexChain st.graph aidx ids idsShape).1.nodes.length :=
                hpre1.len_le
              omega
            · have h1 : st.graph.fresh ≤
                  (buildValidIndexChain st.graph aidx ids idsShape).1.fresh :=
                hpre1.fresh_le
              omega

theorem fullRewrite_true (g0 : Graph) (st : CState) (aidx ids sq : Nat)
    (p : Graph × Bool) (h : fullRewrite g0 st aidx ids sq = .ok p) : p.2 = true := by
  unfold fullRewrite at h
  obtain ⟨gD, hD, h⟩ := except_bind_ok _ _ _ h
  obtain ⟨gF, hF, h⟩ := except_bind_ok _ _ _ h
  injection h with hpair
  rw [← hpair]

/-- Claim C9: in full-elimination mode, whenever a qualifying anchor is found
and its token-id shape passes the static trailing-dims check, a run that
returns success always reports the graph as modified, strictly grows the node
list, and the result contains a `FlattenAndUnpad` adapter node (the flatten +
gather adapter spliced onto the embedding's token-id input) — even when the
classifier included no node beyond the anchor's own outputs. -/
theorem C9_full_mode_always_modifies (sparse : List Nat) (fuel : Nat) (g g' : Graph)
    (m : Bool) (aidx ids : Nat) (idsShape : List Dim) (hwf : WF g)
    (hsp : sparse.isEmpty = false)
    (hfa : findAnchor g sparse = some (aidx, ids))
    (hsh : shapeOfArg g ids = some idsShape)
    (htd : trailingDimsOk idsShape = true)
    (h : applyImpl true sparse fuel g = .ok (g', m)) :
    m = true ∧ g.nodes.length < g'.nodes.length ∧
    ∃ k, k < g'.nodes.length ∧ (nodeAt g' k).op = .flattenAndUnpad := by
  have hm : m = true := by
    unfold applyImpl at h
    rw [if_neg (fun hc => Bool.noConfusion (hsp ▸ hc))] at h
    rw [hfa] at h
    dsimp only at h
    rw [hsh] at h
    dsimp only at h
    rw [if_pos htd] at h
    cases hit : iterateSubgraphFromNode true fuel g aidx
        ((nodeAt g aidx).outputs.foldl insertId []) with
    | error c =>
      rw [hit] at h
      exact Except.noConfusion h
    | ok st =>
      rw [hit] at h
      dsimp only at h
      rw [if_neg (fun hc => Bool.noConfusion hc.1)] at h
      have hb : buildValidIndexChain st.graph aidx ids idsShape =
          ((buildValidIndexChain st.graph aidx ids idsShape).1,
           (buildValidIndexChain st.graph aidx ids idsShape).2) := rfl
      rw [hb] at h
      dsimp only at h
      rw [if_neg (fun hc => Bool.noConfusion hc)] at h
      exact fullRewrite_true _ st aidx ids _ (g', m) h
  subst hm
  obtain ⟨aidx', ids', -, -, -, -, hlen, hflat, -⟩ :=
    applyImpl_true_run sparse fuel g g' hwf h
  exact ⟨rfl, hlen, hflat⟩

theorem C9_full_mode_always_modifies_witness :
    gSingleAnchor.nodes.length < gSingleAnchorOut.nodes.length ∧
    (∃ k, k < gSingleAnchorOut.nodes.length ∧
      (nodeAt gSingleAnchorOut k).op = .flattenAndUnpad) := by
  have h := C9_full_mode_always_modifies [0] 6 gSingleAnchor gSingleAnchorOut true 0 0
    [Dim.value 4, Dim.value 16]
    ⟨by decide, by decide, by decide, by decide, by decide, by decide, by decide,
     by decide⟩
    rfl rfl rfl rfl rfl
  exact ⟨h.2.1, h.2.2⟩

/-- Claim C8 (amended): after a successful modifying full-mode run on a graph
with at most one qualifying anchor, a second full-mode run finds no qualifying
anchor (the rewritten anchor's token-id input has been redirected to the
adapter's freshly created output, which is not a graph input, and every node
added by the rewrite is not an ATen node) and returns success with the graph
unmodified and the modified flag unset.  The original claim quantified over
every graph; it fails when two disconnected qualifying anchors coexist, since
the anchor scan rewrites only the first match (see the counterexample). -/
theorem C8_amended (sparse : List Nat) (fuel fuel2 : Nat) (g g' : Graph)
    (hwf : WF g)
    (huniq : ∀ j1 ∈ List.range g.nodes.length, ∀ j2 ∈ List.range g.nodes.length,
        anchorQualified g sparse (nodeAt g j1) = true →
        anchorQualified g sparse (nodeAt g j2) = true → j1 = j2)
    (h : applyImpl true sparse fuel g = .ok (g', true)) :
    findAnchor g' sparse = none ∧ applyImpl true sparse fuel2 g' = .ok (g', false) := by
  obtain ⟨aidx, ids, hfa, haidx, hwf', hpre, hlen, -, hinp1⟩ :=
    applyImpl_true_run sparse fuel g g' hwf h
  obtain ⟨-, hqa, -⟩ := findAnchor_some g sparse aidx ids hfa
  have hqual : ∀ j, anchorQualified g' sparse (nodeAt g' j) = false := by
    intro j
    cases hx : anchorQualified g' sparse (nodeAt g' j) with
    | false => rfl
    | true =>
      exfalso
      obtain ⟨h1, h2, h3, h5, ⟨s', hsh', hslen'⟩, h7, ⟨info, hin, hd, hi, hv⟩⟩ :=
        (anchorQualified_eq_true_iff g' sparse (nodeAt g' j)).mp hx
      by_cases hjlen : j < g'.nodes.length
      case neg =>
        rw [nodeAt_out_of_range g' j (Nat.not_lt.mp hjlen)] at h1
        exact absurd h1 (by decide)
      case pos =>
      by_cases hjold : j < g.nodes.length
      case neg =>
        have hop := hpre.new_not_aten j (Nat.not_lt.mp hjold) hjlen
        unfold isATenEmbedding at h1
        simp only [Bool.and_eq_true, decide_eq_true_eq] at h1
        exact absurd h1.1 hop
      case pos =>
      by_cases hja : j = aidx
      · subst hja
        rw [hpre.gin_eq] at h5
        have hlt := hwf.gi_lt _ h5
        omega
      · rcases hpre.old_inp j 1 hjold with he1 | ⟨hf1, -⟩
        · rcases hpre.old_inp j 2 hjold with he2 | ⟨hf2, ho2⟩
          · have hgood : anchorQualified g sparse (nodeAt g j) = true := by
              refine (anchorQualified_eq_true_iff g sparse (nodeAt g j)).mpr
                ⟨?_, ?_, ?_, ?_, ?_, ?_, ?_⟩
              · unfold isATenEmbedding at h1 ⊢
                simp only [Bool.and_eq_true, decide_eq_true_eq] at h1 ⊢
                rw [← hpre.old_op j hjold, ← hpre.old_operator j hjold]
                exact h1
              · rw [← hpre.old_prov j hjold]
                exact h2
              · rw [← hpre.old_inlen j hjold]
                exact h3
              · unfold inp at h5 ⊢
                rw [← he1]
                rw [hpre.gin_eq] at h5
                exact h5
              · refine ⟨s', ?_, hslen'⟩
                unfold inp at hsh' h5 ⊢
                rw [hpre.gin_eq] at h5
                rw [← he1, ← hpre.shapes_pres _ h5]
                exact hsh'
              · unfold inp at h7 ⊢
                rw [← he1]
                exact h7
              · refine ⟨info, ?_, hd, hi, hv⟩
                unfold inp at hin ⊢
                have hv2lt : (nodeAt g' j).inputs.getD 2 0 < g.fresh := by
                  rw [he2]
                  have hl : 3 ≤ (nodeAt g j).inputs.length := by
                    rw [← hpre.old_inlen j hjold]
                    exact h3
                  exact hwf.in_lt (nodeAt g j) (getD_mem g.nodes j default hjold)
                    ((nodeAt g j).inputs.getD 2 0)
                    (getD_mem (nodeAt g j).inputs 2 0 (by omega))
                rw [← he2, ← hpre.init_pres _ hv2lt]
                exact hin
            exact hja (huniq j (List.mem_range.mpr hjold) aidx
              (List.mem_range.mpr haidx) hgood hqa)
          · have hnone := hpre.init_fresh_none _ hf2 ho2
            unfold inp at hin
            rw [hin] at hnone
            exact Option.noConfusion hnone
        · rw [hpre.gin_eq] at h5
          have hlt := hwf.gi_lt _ h5
          have hf1' : g.fresh ≤ inp (nodeAt g' j) 1 := hf1
          omega
  have hall : ∀ x ∈ List.range g'.nodes.length,
      ¬ (anchorQualified g' sparse (nodeAt g' x) = true) := by
    intro x hx hpx
    rw [hqual x] at hpx
    exact Bool.noConfusion hpx
  have hfan : findAnchor g' sparse = none := by
    unfold findAnchor
    rw [List.find?_eq_none.mpr hall]
    rfl
  refine ⟨hfan, ?_⟩
  unfold applyImpl
  by_cases hsp : sparse.isEmpty = true
  · rw [if_pos hsp]
  · rw [if_neg hsp, hfan]

theorem C8_amended_witness :
    findAnchor gSingleAnchorOut [0] = none ∧
    applyImpl true [0] 6 gSingleAnchorOut = .ok (gSingleAnchorOut, false) :=
  C8_amended [0] 6 6 gSingleAnchor gSingleAnchorOut
    ⟨by decide, by decide, by decide, by decide, by decide, by decide, by decide,
     by decide⟩
    (by decide) rfl

/-- Claim C8 (counterexample): on `gTwoAnchors`, a full-mode run succeeds and
modifies the graph, yet the second run still finds a qualifying anchor (the
second embedding node, untouched by the first run) and modifies the graph
again — refuting the claim for graphs with more than one qualifying anchor. -/
theorem C8_counterexample :
    (do
      let p1 ← applyImpl true [0, 1] 6 gTwoAnchors
      let p2 ← applyImpl true [0, 1] 6 p1.1
      Except.ok (p1.2, (findAnchor p1.1 [0, 1]).isSome, p2.2) :
        Except Crash (Bool × Bool × Bool)) =
    Except.ok (true, true, true) := rfl

end PaddingElim
